import Mathlib

/-!
Verification development for the MyFitnessPaw incremental synchronization and
decomposition engine.

The definitions below are a shallow embedding of the Python source:
  * `src/myfitnesspaw/tasks.py`   — tasks (change detection, decomposition, load, report)
  * `src/myfitnesspaw/sql.py`     — table schemas (primary keys, ON DELETE CASCADE)
  * `src/myfitnesspaw/flows.py`   — the ETL flow wiring (`get_etl_flow`)
  * `src/myfitnesspaw/types.py`   — `ProgressReport._prepare_nutrition_table`

Modelling conventions:
  * Dates are abstract day indices (`Nat`); payloads produced by `jsonpickle.encode`
    are `String`s produced by an abstract `encode` parameter.
  * Python `dict.get(k, None)` over numeric dictionaries is modelled by an
    association-list lookup returning `Option Int`.
  * SQLite tables are lists of rows in insertion (rowid) order.  AUTOINCREMENT
    surrogate ids (`MealEntries.id`, `CardioExercises.id`, `StrengthExercises.id`)
    are omitted; those rows are identified by their data columns and duplicates
    remain representable because tables are lists.
  * Fallible operations (`cursor.execute*` constraint failures, `jsonpickle.decode`)
    return `Except String` / `Option`.
-/

/-! ## Basic data model (mirrors `_utils.MaterializedDay` and myfitnesspal objects) -/

/-- Abstract calendar date: the code treats dates as opaque keys. -/
abbrev Date := Nat

/-- Lookup in a Python dictionary of numeric values: `d.get(key, None)`. -/
def dget (d : List (String × Int)) (key : String) : Option Int :=
  (d.find? (fun p => p.1 == key)).map (·.2)

/-- Food note dictionary produced by `day.notes.as_dict()`: it always carries the
`type` and `body` keys (python-myfitnesspal scrapes only food notes). -/
structure NotesDict where
  type : String
  body : String
deriving DecidableEq, Repr

/-- Model of `myfitnesspal.entry.Entry` as used by `extract_mealentries`. -/
structure MealEntryD where
  short_name : String
  quantity : Int
  unit : String
  totals : List (String × Int)
deriving DecidableEq, Repr

/-- Model of `myfitnesspal.meal.Meal`.  `username` and `date` model the attributes
that `extract_meals` attaches to the meal object in place. -/
structure MealD where
  username : String
  date : Date
  name : String
  totals : List (String × Int)
  entries : List MealEntryD
deriving DecidableEq, Repr

/-- Model of one exercise record (`record.name`, `record.nutrition_information`). -/
structure ExerciseRecord where
  name : String
  nutrition_information : List (String × Int)
deriving DecidableEq, Repr

/-- Model of `_utils.MaterializedDay`.  `meals` may contain `none` entries
(placeholder meals skipped by `extract_meals`); `exercises` is the two-element
list `[cardio records, strength records]` indexed positionally by the code. -/
structure MaterializedDay where
  username : String
  date : Date
  meals : List (Option MealD)
  exercises : List (List ExerciseRecord)
  goals : List (String × Int)
  notes : NotesDict
  water : Int
  measurements : List (String × Int)
deriving DecidableEq, Repr

/-! ## Relational Decomposer (`tasks.extract_*`) -/

/-- Row of the `Notes` table: `(userid, date, type, body)`. -/
abbrev NoteRow := String × Date × String × String

/-- Row of the `Water` table: `(userid, date, quantity)`. -/
abbrev WaterRow := String × Date × Int

/-- Row of the `Goals` table. -/
structure GoalRow where
  userid : String
  date : Date
  calories : Option Int
  carbs : Option Int
  fat : Option Int
  protein : Option Int
  sodium : Option Int
  sugar : Option Int
deriving DecidableEq, Repr

/-- Row of the `Meals` table (PK `(userid, date, name)`). -/
structure MealRow where
  userid : String
  date : Date
  name : String
  calories : Option Int
  carbs : Option Int
  fat : Option Int
  protein : Option Int
  sodium : Option Int
  sugar : Option Int
deriving DecidableEq, Repr

/-- Row of the `MealEntries` table (AUTOINCREMENT id omitted). -/
structure MealEntryRow where
  userid : String
  date : Date
  meal_name : String
  short_name : String
  quantity : Int
  unit : String
  calories : Option Int
  carbs : Option Int
  fat : Option Int
  protein : Option Int
  sodium : Option Int
  sugar : Option Int
deriving DecidableEq, Repr

/-- Row of the `CardioExercises` table (AUTOINCREMENT id omitted). -/
structure CardioRow where
  userid : String
  date : Date
  exercise_name : String
  minutes : Option Int
  calories_burned : Option Int
deriving DecidableEq, Repr

/-- Row of the `StrengthExercises` table (AUTOINCREMENT id omitted). -/
structure StrengthRow where
  userid : String
  date : Date
  exercise_name : String
  sets : Option Int
  reps : Option Int
  weight : Option Int
deriving DecidableEq, Repr

/-- Row of the `Measurements` table (PK `(userid, date, measure_name)`). -/
structure MeasurementRow where
  userid : String
  date : Date
  measure_name : String
  value : Int
deriving DecidableEq, Repr

/-- `tasks.extract_notes`: one row per day whose food-note body is truthy
(a non-empty string); the comprehension filters on `day.notes["body"]`. -/
def extract_notes (days : List MaterializedDay) : List NoteRow :=
  (days.filter (fun day => day.notes.body != "")).map
    (fun day => (day.username, day.date, day.notes.type, day.notes.body))

/-- `tasks.extract_water`: one row per day. -/
def extract_water (days : List MaterializedDay) : List WaterRow :=
  days.map (fun day => (day.username, day.date, day.water))

/-- `tasks.extract_goals`: one row per day, absent nutrients mapped to NULL. -/
def extract_goals (days : List MaterializedDay) : List GoalRow :=
  days.map (fun day =>
    { userid := day.username, date := day.date
      calories := dget day.goals "calories"
      carbs := dget day.goals "carbohydrates"
      fat := dget day.goals "fat"
      protein := dget day.goals "protein"
      sodium := dget day.goals "sodium"
      sugar := dget day.goals "sugar" })

/-- `tasks.extract_meals`: skips falsy (placeholder) meals, and attaches
`day.username` / `day.date` to each remaining meal object IN PLACE before
returning the flattened meal list.  The in-place mutation of the
source-provided day objects is made explicit by also returning the updated
day list. -/
def extract_meals (days : List MaterializedDay) : List MealD × List MaterializedDay :=
  let tagged := days.map (fun day =>
    { day with meals := day.meals.map (fun m =>
        match m with
        | none => none
        | some meal => some { meal with username := day.username, date := day.date }) })
  (tagged.flatMap (fun day => day.meals.filterMap id), tagged)

/-- `tasks.extract_meal_records`: one `Meals` row per meal object. -/
def extract_meal_records (meals : List MealD) : List MealRow :=
  meals.map (fun meal =>
    { userid := meal.username, date := meal.date, name := meal.name
      calories := dget meal.totals "calories"
      carbs := dget meal.totals "carbohydrates"
      fat := dget meal.totals "fat"
      protein := dget meal.totals "protein"
      sodium := dget meal.totals "sodium"
      sugar := dget meal.totals "sugar" })

/-- `tasks.extract_mealentries`: one `MealEntries` row per entry of each meal. -/
def extract_mealentries (meals : List MealD) : List MealEntryRow :=
  meals.flatMap (fun meal => meal.entries.map (fun entry =>
    { userid := meal.username, date := meal.date, meal_name := meal.name
      short_name := entry.short_name, quantity := entry.quantity, unit := entry.unit
      calories := dget entry.totals "calories"
      carbs := dget entry.totals "carbohydrates"
      fat := dget entry.totals "fat"
      protein := dget entry.totals "protein"
      sodium := dget entry.totals "sodium"
      sugar := dget entry.totals "sugar" }))

/-- `tasks.extract_cardio_exercises`: iterates `day.exercises[0]`. -/
def extract_cardio_exercises (days : List MaterializedDay) : List CardioRow :=
  days.flatMap (fun day => (day.exercises.getD 0 []).map (fun record =>
    { userid := day.username, date := day.date, exercise_name := record.name
      minutes := dget record.nutrition_information "minutes"
      calories_burned := dget record.nutrition_information "calories burned" }))

/-- `tasks.extract_strength_exercises`: iterates `day.exercises[1]`. -/
def extract_strength_exercises (days : List MaterializedDay) : List StrengthRow :=
  days.flatMap (fun day => (day.exercises.getD 1 []).map (fun record =>
    { userid := day.username, date := day.date, exercise_name := record.name
      sets := dget record.nutrition_information "sets"
      reps := dget record.nutrition_information "reps/set"
      weight := dget record.nutrition_information "weight/set" }))

/-- `tasks.extract_measures`: one row per `(measure_name, value)` pair present
for the day. -/
def extract_measures (days : List MaterializedDay) : List MeasurementRow :=
  days.flatMap (fun day => day.measurements.map (fun p =>
    { userid := day.username, date := day.date, measure_name := p.1, value := p.2 }))

/-! ## Relational storage model (`sql.py` schemas, FK cascade semantics)

SQLite tables are modelled as lists of rows.  `PRAGMA foreign_keys = YES;` is
executed on every connection the flow opens (`SQLiteExecuteMany` is constructed
with `enforce_fk=True` in `flows.get_etl_flow`), so the step functions below
model statement execution with referential-integrity enforcement enabled:
foreign keys are checked on insert, and the REPLACE conflict resolution fires
`ON DELETE CASCADE` actions of the deleted row. -/

/-- Row of the `RawDayData` table: `(userid, date, rawdaydata)`, with a nullable
json payload column.  Serialized extraction records have the same shape. -/
abbrev RawRow := String × Date × Option String

/-- State of the whole MyFitnessPaw SQLite database. -/
structure MfpDB where
  rawDayData : List RawRow
  notes : List NoteRow
  water : List WaterRow
  goals : List GoalRow
  meals : List MealRow
  mealEntries : List MealEntryRow
  cardioExercises : List CardioRow
  strengthExercises : List StrengthRow
  measurements : List MeasurementRow
deriving DecidableEq, Repr

/-- The empty database, as created by `create_mfp_database`. -/
def MfpDB.empty : MfpDB :=
  { rawDayData := [], notes := [], water := [], goals := [], meals := []
    mealEntries := [], cardioExercises := [], strengthExercises := [], measurements := [] }

/-- Keep the rows of a table whose `(userid, date)` key is NOT `(u, d)` —
the effect of a cascaded delete on a child table keyed by day. -/
def eraseKey (user : ρ → String) (dt : ρ → Date) (u : String) (d : Date)
    (l : List ρ) : List ρ :=
  l.filter (fun r => !(user r == u && dt r == d))

/-- Rows of a table whose `(userid, date)` key IS `(u, d)`. -/
def atKey (user : ρ → String) (dt : ρ → Date) (u : String) (d : Date)
    (l : List ρ) : List ρ :=
  l.filter (fun r => user r == u && dt r == d)

/-- Effect of `DELETE FROM RawDayData WHERE userid=u AND date=d` under
`PRAGMA foreign_keys = YES`: every child table cascades on `(userid, date)`;
deleting `Meals` rows in turn cascades to the `MealEntries` rows that
reference a deleted meal (FK `(userid, date, meal_name) REFERENCES
Meals(userid, date, name) ON DELETE CASCADE`). -/
def cascade_delete_day (u : String) (d : Date) (st : MfpDB) : MfpDB :=
  { rawDayData := eraseKey (·.1) (·.2.1) u d st.rawDayData
    notes := eraseKey (·.1) (·.2.1) u d st.notes
    water := eraseKey (·.1) (·.2.1) u d st.water
    goals := eraseKey (·.userid) (·.date) u d st.goals
    meals := eraseKey (·.userid) (·.date) u d st.meals
    mealEntries := st.mealEntries.filter (fun e =>
      !(e.userid == u && e.date == d &&
        st.meals.any (fun m => m.userid == u && m.date == d && m.name == e.meal_name)))
    cardioExercises := eraseKey (·.userid) (·.date) u d st.cardioExercises
    strengthExercises := eraseKey (·.userid) (·.date) u d st.strengthExercises
    measurements := eraseKey (·.userid) (·.date) u d st.measurements }

/-- `sql.insert_or_replace_rawdaydata_record` executed on one parameter tuple:
on a `(userid, date)` primary-key conflict the REPLACE strategy deletes the
existing row (firing the cascades), then the new row is inserted; without a
conflict it is a plain insert.  `RawDayData` itself has no foreign keys, so
this statement never fails. -/
def insert_or_replace_rawdaydata (st : MfpDB) (r : RawRow) : MfpDB :=
  if st.rawDayData.any (fun x => x.1 == r.1 && x.2.1 == r.2.1) then
    let st' := cascade_delete_day r.1 r.2.1 st
    { st' with rawDayData := st'.rawDayData ++ [r] }
  else
    { st with rawDayData := st.rawDayData ++ [r] }

/-- Existence of the `RawDayData` parent row required by every child FK. -/
def rawParentExists (st : MfpDB) (u : String) (d : Date) : Bool :=
  st.rawDayData.any (fun x => x.1 == u && x.2.1 == d)

/-- `sql.insert_notes` on one tuple: FK to `RawDayData`, PK `(userid, date)`. -/
def insert_notes_step (st : MfpDB) (r : NoteRow) : Except String MfpDB :=
  if !(rawParentExists st r.1 r.2.1) then .error "FOREIGN KEY constraint failed"
  else if st.notes.any (fun x => x.1 == r.1 && x.2.1 == r.2.1) then
    .error "UNIQUE constraint failed: Notes"
  else .ok { st with notes := st.notes ++ [r] }

/-- `sql.insert_water` on one tuple: FK to `RawDayData`, PK `(userid, date)`. -/
def insert_water_step (st : MfpDB) (r : WaterRow) : Except String MfpDB :=
  if !(rawParentExists st r.1 r.2.1) then .error "FOREIGN KEY constraint failed"
  else if st.water.any (fun x => x.1 == r.1 && x.2.1 == r.2.1) then
    .error "UNIQUE constraint failed: Water"
  else .ok { st with water := st.water ++ [r] }

/-- `sql.insert_goals` on one tuple: FK to `RawDayData`, PK `(userid, date)`. -/
def insert_goals_step (st : MfpDB) (r : GoalRow) : Except String MfpDB :=
  if !(rawParentExists st r.userid r.date) then .error "FOREIGN KEY constraint failed"
  else if st.goals.any (fun x => x.userid == r.userid && x.date == r.date) then
    .error "UNIQUE constraint failed: Goals"
  else .ok { st with goals := st.goals ++ [r] }

/-- `sql.insert_meals` on one tuple: FK to `RawDayData`, PK `(userid, date, name)`. -/
def insert_meals_step (st : MfpDB) (r : MealRow) : Except String MfpDB :=
  if !(rawParentExists st r.userid r.date) then .error "FOREIGN KEY constraint failed"
  else if st.meals.any (fun x => x.userid == r.userid && x.date == r.date && x.name == r.name) then
    .error "UNIQUE constraint failed: Meals"
  else .ok { st with meals := st.meals ++ [r] }

/-- `sql.insert_mealentries` on one tuple: FK to `Meals(userid, date, name)`;
the surrogate id cannot conflict. -/
def insert_mealentries_step (st : MfpDB) (r : MealEntryRow) : Except String MfpDB :=
  if !(st.meals.any (fun m => m.userid == r.userid && m.date == r.date && m.name == r.meal_name)) then
    .error "FOREIGN KEY constraint failed"
  else .ok { st with mealEntries := st.mealEntries ++ [r] }

/-- `sql.insert_cardioexercises` on one tuple: FK to `RawDayData`. -/
def insert_cardioexercises_step (st : MfpDB) (r : CardioRow) : Except String MfpDB :=
  if !(rawParentExists st r.userid r.date) then .error "FOREIGN KEY constraint failed"
  else .ok { st with cardioExercises := st.cardioExercises ++ [r] }

/-- `sql.insert_strengthexercises` on one tuple: FK to `RawDayData`. -/
def insert_strengthexercises_step (st : MfpDB) (r : StrengthRow) : Except String MfpDB :=
  if !(rawParentExists st r.userid r.date) then .error "FOREIGN KEY constraint failed"
  else .ok { st with strengthExercises := st.strengthExercises ++ [r] }

/-- `sql.insert_measurements` on one tuple (INSERT OR REPLACE): FK to
`RawDayData`; a PK `(userid, date, measure_name)` conflict replaces the
existing row (`Measurements` has no children, so nothing cascades). -/
def insert_measurements_step (st : MfpDB) (r : MeasurementRow) : Except String MfpDB :=
  if !(rawParentExists st r.userid r.date) then .error "FOREIGN KEY constraint failed"
  else .ok { st with measurements :=
    (st.measurements.filter (fun x =>
      !(x.userid == r.userid && x.date == r.date && x.measure_name == r.measure_name))) ++ [r] }

/-! ## `tasks.SQLiteExecuteMany` -/

/-- Python exception classes that `SQLiteExecuteMany.run` can surface. -/
inductive PyError where
  | valueError (msg : String)
  | databaseError (msg : String)
deriving DecidableEq, Repr

/-- `cursor.executemany(query, data)`: execute the statement once per parameter
tuple, in order, stopping at the first constraint failure.  `step` is the
semantics of one execution of the (fixed) query under the connection's PRAGMA
settings. -/
def executeMany (step : MfpDB → ρ → Except String MfpDB) :
    List ρ → MfpDB → Except String MfpDB
  | [], st => .ok st
  | r :: rest, st =>
    match step st r with
    | .ok st' => executeMany step rest st'
    | .error e => .error e

/-- `tasks.SQLiteExecuteMany.run`: validates its arguments (`db` and `query`
must be truthy, `data` must not be `None` — an empty list is allowed), then
runs `cursor.executemany` and commits.  SQLite errors surface as
`DatabaseError`, never as `ValueError`. -/
def sqlite_execute_many_run (step : MfpDB → ρ → Except String MfpDB)
    (db query : Option String) (data : Option (List ρ)) (st : MfpDB) :
    Except PyError MfpDB :=
  if db = none ∨ db = some "" then
    .error (.valueError "A database connection string must be provided")
  else if query = none ∨ query = some "" then
    .error (.valueError "A query string must be provided")
  else
    match data with
    | none => .error (.valueError "A data list must be provided")
    | some rows => (executeMany step rows st).mapError .databaseError

/-! ## Change Detector and the ETL pipeline (`tasks.py`, `flows.get_etl_flow`) -/

/-- `tasks.serialize_myfitnesspal_days`: one `(username, date, payload)` tuple
per extracted day; `encode` stands for the deterministic `jsonpickle.encode`. -/
def serialize_myfitnesspal_days (encode : MaterializedDay → String)
    (myfitnesspal_days : List MaterializedDay) : List RawRow :=
  myfitnesspal_days.map (fun day => (day.username, day.date, some (encode day)))

/-- `sql.select_rawdaydata_record` followed by `fetchone()`: the payload of the
first `RawDayData` row with key `(username, date)`, `None` when no row exists
(and also when the stored payload itself is NULL, exactly as
`result[0] if result else None` behaves). -/
def select_rawdaydata_record (rawtbl : List RawRow) (username : String) (date : Date) :
    Option String :=
  (rawtbl.find? (fun r => r.1 == username && r.2.1 == date)).bind (·.2.2)

/-- `tasks.mfp_select_raw_days`: one `(username, date, payload?)` tuple per
requested date. -/
def mfp_select_raw_days (rawtbl : List RawRow) (username : String)
    (dates : List Date) : List RawRow :=
  dates.map (fun date => (username, date, select_rawdaydata_record rawtbl username date))

/-- `tasks.filter_new_or_changed_records`: keep extracted tuples that do not
occur verbatim (Python tuple equality, i.e. byte-for-byte payload equality)
in the locally available records. -/
def filter_new_or_changed_records (extracted_records local_records : List RawRow) :
    List RawRow :=
  extracted_records.filter (fun t => !(local_records.contains t))

/-- `tasks.deserialize_records_to_process`: decode each record's payload in
order; `jsonpickle.decode` failure (or a NULL payload) raises. -/
def deserialize_records_to_process (decode : String → Option MaterializedDay) :
    List RawRow → Except String (List MaterializedDay)
  | [] => .ok []
  | r :: rest =>
    match r.2.2 with
    | none => .error "deserialization failed"
    | some s =>
      match decode s with
      | none => .error "deserialization failed"
      | some day =>
        match deserialize_records_to_process decode rest with
        | .ok days => .ok (day :: days)
        | .error e => .error e

/-- Load stages of `flows.get_etl_flow` downstream of the raw-day write, in the
flow's textual order: each child relation is extracted from the deserialized
days and written with one `SQLiteExecuteMany` batch (`enforce_fk=True`);
`MealEntries` is explicitly ordered after `Meals`. -/
def loadChildren (days : List MaterializedDay) (st : MfpDB) : Except String MfpDB := do
  let note_records := extract_notes days
  let st ← executeMany insert_notes_step note_records st
  let water_records := extract_water days
  let st ← executeMany insert_water_step water_records st
  let goal_records := extract_goals days
  let st ← executeMany insert_goals_step goal_records st
  let meals_to_process := (extract_meals days).1
  let meal_records := extract_meal_records meals_to_process
  let st ← executeMany insert_meals_step meal_records st
  let mealentry_records := extract_mealentries meals_to_process
  let st ← executeMany insert_mealentries_step mealentry_records st
  let cardio_records := extract_cardio_exercises days
  let st ← executeMany insert_cardioexercises_step cardio_records st
  let strength_records := extract_strength_exercises days
  let st ← executeMany insert_strengthexercises_step strength_records st
  let measurements_records := extract_measures days
  let st ← executeMany insert_measurements_step measurements_records st
  return st

/-- One run of `flows.get_etl_flow` on already-extracted input: serialize the
extracted days, select the locally stored snapshots for the same dates, keep
only new/changed records, upsert them into `RawDayData`, deserialize exactly
those records, and load every child relation from them. -/
def etl_run (encode : MaterializedDay → String) (decode : String → Option MaterializedDay)
    (username : String) (dates : List Date) (extracted_days : List MaterializedDay)
    (st : MfpDB) : Except String MfpDB := do
  let serialized_extracted_days := serialize_myfitnesspal_days encode extracted_days
  let mfp_existing_days := mfp_select_raw_days st.rawDayData username dates
  let serialized_days_to_process :=
    filter_new_or_changed_records serialized_extracted_days mfp_existing_days
  let st ← executeMany (fun s r => .ok (insert_or_replace_rawdaydata s r))
    serialized_days_to_process st
  let days_to_process ← deserialize_records_to_process decode serialized_days_to_process
  loadChildren days_to_process st

/-- Forced reprocessing of one snapshot: upsert the day's serialized record
into `RawDayData` (bypassing the Change Detector) and re-run the child load
for that day alone. -/
def forced_reload (encode : MaterializedDay → String) (day : MaterializedDay)
    (st : MfpDB) : Except String MfpDB :=
  loadChildren [day]
    (insert_or_replace_rawdaydata st (day.username, day.date, some (encode day)))

/-! ## Referential-integrity invariant of a database state

Every write path of the repository opens its connection with
`PRAGMA foreign_keys = YES;`, so any state produced by the system satisfies
the declared foreign keys. -/

/-- Every row of `l` has a `RawDayData` parent row. -/
def refsRaw (user : ρ → String) (dt : ρ → Date) (l : List ρ) (rawtbl : List RawRow) : Prop :=
  ∀ r ∈ l, ∃ w ∈ rawtbl, w.1 = user r ∧ w.2.1 = dt r

/-- Every `MealEntries` row references an existing `Meals` row. -/
def EntriesConsistent (st : MfpDB) : Prop :=
  ∀ e ∈ st.mealEntries, ∃ m ∈ st.meals,
    m.userid = e.userid ∧ m.date = e.date ∧ m.name = e.meal_name

/-- All declared foreign keys of the schema hold in the state. -/
def FKConsistent (st : MfpDB) : Prop :=
  refsRaw (·.1) (·.2.1) st.notes st.rawDayData ∧
  refsRaw (·.1) (·.2.1) st.water st.rawDayData ∧
  refsRaw (·.userid) (·.date) st.goals st.rawDayData ∧
  refsRaw (·.userid) (·.date) st.meals st.rawDayData ∧
  refsRaw (·.userid) (·.date) st.cardioExercises st.rawDayData ∧
  refsRaw (·.userid) (·.date) st.strengthExercises st.rawDayData ∧
  refsRaw (·.userid) (·.date) st.measurements st.rawDayData ∧
  refsRaw (·.userid) (·.date) st.mealEntries st.rawDayData ∧
  EntriesConsistent st

/-! ## Progress report (`tasks.mfp_select_daily_report_data`,
`tasks.calculate_chart_data`, `types.ProgressReport._prepare_nutrition_table`) -/

/-- One row of the daily-report series, as fetched by the report query:
`(day_number, date, cal target, deficit target, deficit actual, running deficit)`.
`date` is the already-formatted `"%d-%b-%Y"` string the code compares against
yesterday's formatted date. -/
structure ReportRow where
  day_number : Int
  date : String
  calories_target : Option Int
  deficit_target : Option Int
  deficit_actual : Option Int
  deficit_accumulated : Option Int
deriving DecidableEq, Repr

/-- Value of the single-entry chart dictionary built by
`tasks.calculate_chart_data`: `{current_date: (segments, category)}`. -/
structure ChartData where
  date : String
  segments : Int × Int × Int
  category : String
deriving DecidableEq, Repr

/-- `tasks.calculate_chart_data`.  The code reads `report_data[4]` and
`report_data[5]` and compares/subtracts them, which raises `TypeError` when
either is NULL (modelled as `none`); the caller only passes rows that
survived the NULL filter. -/
def calculate_chart_data (end_goal : Int) (report_data : ReportRow) : Option ChartData :=
  match report_data.deficit_actual, report_data.deficit_accumulated with
  | some deficit_actual, some deficit_accumulated =>
    if deficit_actual < 0 then
      let deficit_remaining := end_goal - deficit_accumulated + |deficit_actual|
      some { date := report_data.date
             segments := (deficit_accumulated - |deficit_actual|, |deficit_actual|,
                          deficit_remaining + deficit_actual)
             category := "warning" }
    else
      let deficit_remaining := end_goal - deficit_accumulated - deficit_actual
      some { date := report_data.date
             segments := (deficit_accumulated, deficit_actual, deficit_remaining)
             category := "accent" }
  | _, _ => none

/-- NULL-deficit filter shared by `tasks.mfp_select_daily_report_data` (line
`[row for row in report_data if row[4] is not None]`) and
`types.ProgressReport._prepare_nutrition_table`. -/
def report_window (report_data : List ReportRow) : List ReportRow :=
  report_data.filter (fun row => row.deficit_actual != none)

/-- Python negative-slice `l[-k:]`: the last `k` elements for `k > 0`, the
whole list for `k = 0`. -/
def takeLastPy (k : Nat) (l : List α) : List α :=
  if k = 0 then l else l.drop (l.length - k)

/-- Populated report dictionary returned by `tasks.mfp_select_daily_report_data`
(the fields downstream consumers read; the static strings are omitted). -/
structure DailyReport where
  current_day_number : Int
  nutrition_tbl_data : List ReportRow
  chart_data : Option ChartData
deriving DecidableEq, Repr

/-- `tasks.mfp_select_daily_report_data`, given the rows fetched by the report
query and yesterday's formatted date (the code computes the latter from the
current date).  Returns `none` for the `{}` early return. -/
def mfp_select_daily_report_data (yesterday_str : String)
    (report_data : List ReportRow) (end_goal : Int)
    (report_tbl_span_limit : Nat) : Option DailyReport :=
  let report_window_data := report_window report_data
  match report_window_data.getLast? with
  | none => none
  | some yesterday_tbl_row =>
    if yesterday_tbl_row.date != yesterday_str then none
    else
      some { current_day_number := yesterday_tbl_row.day_number
             nutrition_tbl_data := takeLastPy report_tbl_span_limit report_window_data
             chart_data := calculate_chart_data end_goal yesterday_tbl_row }

/-- `types.ProgressReport._prepare_nutrition_table`: same staleness test;
returns `{}` (modelled `none`) or the last rows of the filtered series. -/
def prepare_nutrition_table (yesterday_str : String) (num_rows_report_tbl : Nat)
    (data : List ReportRow) : Option (List ReportRow) :=
  let report_window_data := report_window data
  match report_window_data.getLast? with
  | none => none
  | some lastRow =>
    if lastRow.date != yesterday_str then none
    else some (takeLastPy num_rows_report_tbl report_window_data)

/-! ## Aggregation series (spec-modelled)

The SQL text `select_daily_report` that `tasks.mfp_select_daily_report_data`
executes is referenced as `sql.select_daily_report` but is absent from the
repository (`sql.py` does not define it), so the series it computes is
modelled from the specification. -/

/-- Input of the aggregation: one date with a Goal row, its goal calorie
value, the calories burned that day, and the calories consumed (absent when
no Meal data exists yet). -/
structure GoalDay where
  date : String
  calories_target : Int
  calories_burned : Int
  calories_consumed : Option Int
deriving DecidableEq, Repr

/-- Modelled from the spec: `deficit_target` = resting-expenditure-estimate −
`calories_target` + calories burned that day (spec section 4.4; the computing
SQL `select_daily_report` is missing from the repository). -/
def deficit_target_of (resting : Int) (d : GoalDay) : Int :=
  resting - d.calories_target + d.calories_burned

/-- Modelled from the spec: `deficit_actual` = `deficit_target` +
(`calories_target` − calories consumed), NULL while no Meal data exists. -/
def deficit_actual_of (resting : Int) (d : GoalDay) : Option Int :=
  d.calories_consumed.map (fun c => deficit_target_of resting d + (d.calories_target - c))

/-- Modelled from the spec: running sum of `deficit_actual` over an ordered
series prefix (a NULL `deficit_actual` contributes nothing to the sum). -/
def deficit_prefix_sum (resting : Int) (days : List GoalDay) : Int :=
  (days.map (fun d => (deficit_actual_of resting d).getD 0)).sum

/-- Modelled from the spec: the missing `select_daily_report` query computes,
for each date with a Goal row in ascending date order, the report row with
`day_number` the 1-based rank over the full ordered series and
`deficit_accumulated` the running sum of `deficit_actual` — both assigned
before any filtering. -/
def aggregate_go (resting : Int) : List GoalDay → Nat → Int → List ReportRow
  | [], _, _ => []
  | d :: rest, idx, acc =>
    let da := deficit_actual_of resting d
    let acc' := acc + da.getD 0
    { day_number := (idx : Int) + 1
      date := d.date
      calories_target := some d.calories_target
      deficit_target := some (deficit_target_of resting d)
      deficit_actual := da
      deficit_accumulated := some acc' } :: aggregate_go resting rest (idx + 1) acc'

/-- Modelled from the spec: the complete aggregated report series. -/
def aggregate_report_rows (resting : Int) (days : List GoalDay) : List ReportRow :=
  aggregate_go resting days 0 0

/-! ## Task graph of `flows.get_etl_flow` (write ordering)

Prefect starts a task only after all of its upstream tasks have finished, and
every `SQLiteExecuteMany` load commits before its task finishes, so a load
task that precedes another in every schedule consistent with the flow's
dependency edges commits strictly before it. -/

/-- Tasks instantiated by `flows.get_etl_flow` (lines 40–122). -/
inductive EtlTask where
  | prepareDates | genDates | getDays | serializeDays | createDb | selectRawDays
  | filterNewOrChanged | loadRawDays | deserializeDays
  | extractNotesT | loadNotes | extractWaterT | loadWater | extractGoalsT | loadGoals
  | extractMealsT | extractMealRecordsT | loadMeals | extractMealEntriesT | loadMealEntries
  | extractCardioT | loadCardio | extractStrengthT | loadStrength
  | extractMeasuresT | loadMeasures
deriving DecidableEq, Repr

open EtlTask in
/-- All tasks of the flow. -/
def etl_tasks : List EtlTask :=
  [prepareDates, genDates, getDays, serializeDays, createDb, selectRawDays,
   filterNewOrChanged, loadRawDays, deserializeDays,
   extractNotesT, loadNotes, extractWaterT, loadWater, extractGoalsT, loadGoals,
   extractMealsT, extractMealRecordsT, loadMeals, extractMealEntriesT, loadMealEntries,
   extractCardioT, loadCardio, extractStrengthT, loadStrength,
   extractMeasuresT, loadMeasures]

open EtlTask in
/-- Dependency edges of `get_etl_flow`: data-flow edges plus the explicit
`upstream_tasks` edges (`loadRawDays → deserializeDays`,
`createDb → selectRawDays`, `loadMeals → loadMealEntries`). -/
def etl_edges : List (EtlTask × EtlTask) :=
  [(prepareDates, genDates),
   (genDates, getDays), (genDates, selectRawDays),
   (createDb, selectRawDays),
   (getDays, serializeDays),
   (serializeDays, filterNewOrChanged), (selectRawDays, filterNewOrChanged),
   (filterNewOrChanged, loadRawDays),
   (filterNewOrChanged, deserializeDays), (loadRawDays, deserializeDays),
   (deserializeDays, extractNotesT), (extractNotesT, loadNotes),
   (deserializeDays, extractWaterT), (extractWaterT, loadWater),
   (deserializeDays, extractGoalsT), (extractGoalsT, loadGoals),
   (deserializeDays, extractMealsT), (extractMealsT, extractMealRecordsT),
   (extractMealRecordsT, loadMeals),
   (extractMealsT, extractMealEntriesT), (extractMealEntriesT, loadMealEntries),
   (loadMeals, loadMealEntries),
   (deserializeDays, extractCardioT), (extractCardioT, loadCardio),
   (deserializeDays, extractStrengthT), (extractStrengthT, loadStrength),
   (deserializeDays, extractMeasuresT), (extractMeasuresT, loadMeasures)]

/-- Execution schedules the orchestrator may realize: a linearization of all
flow tasks respecting every dependency edge. -/
def IsScheduleOf (order : List EtlTask) : Prop :=
  order.Perm etl_tasks ∧
  ∀ e ∈ etl_edges, order.indexOf e.1 < order.indexOf e.2

/-! ## Observations used by the load-correctness statements -/

/-- The child rows stored for one `(userid, date)` key, per child relation. -/
structure DayChildren where
  notes : List NoteRow
  water : List WaterRow
  goals : List GoalRow
  meals : List MealRow
  mealEntries : List MealEntryRow
  cardio : List CardioRow
  strength : List StrengthRow
  measurements : List MeasurementRow
deriving DecidableEq, Repr

/-- Children of key `(u, d)` currently persisted in the database. -/
def childrenAt (st : MfpDB) (u : String) (d : Date) : DayChildren :=
  { notes := atKey (·.1) (·.2.1) u d st.notes
    water := atKey (·.1) (·.2.1) u d st.water
    goals := atKey (·.userid) (·.date) u d st.goals
    meals := atKey (·.userid) (·.date) u d st.meals
    mealEntries := atKey (·.userid) (·.date) u d st.mealEntries
    cardio := atKey (·.userid) (·.date) u d st.cardioExercises
    strength := atKey (·.userid) (·.date) u d st.strengthExercises
    measurements := atKey (·.userid) (·.date) u d st.measurements }

/-- No children at all. -/
def DayChildren.empty : DayChildren :=
  { notes := [], water := [], goals := [], meals := [], mealEntries := []
    cardio := [], strength := [], measurements := [] }

/-- The child rows the Relational Decomposer derives from one day's payload. -/
def derivedChildren (day : MaterializedDay) : DayChildren :=
  { notes := extract_notes [day]
    water := extract_water [day]
    goals := extract_goals [day]
    meals := extract_meal_records (extract_meals [day]).1
    mealEntries := extract_mealentries (extract_meals [day]).1
    cardio := extract_cardio_exercises [day]
    strength := extract_strength_exercises [day]
    measurements := extract_measures [day] }

/-- Effect of the whole `Measurements` INSERT OR REPLACE batch on the
`Measurements` table alone. -/
def measReplace (l : List MeasurementRow) (r : MeasurementRow) : List MeasurementRow :=
  (l.filter (fun x =>
    !(x.userid == r.userid && x.date == r.date && x.measure_name == r.measure_name))) ++ [r]

/-- Fold of `measReplace` over a batch, in order. -/
def measFold (l : List MeasurementRow) (rows : List MeasurementRow) : List MeasurementRow :=
  rows.foldl measReplace l

/-- Fold of the raw-day upsert over a batch, in order. -/
def rawFold (recs : List RawRow) (st : MfpDB) : MfpDB :=
  recs.foldl insert_or_replace_rawdaydata st

/-! ## Concrete inputs used by the witnesses -/

/-- Concrete meal entry. -/
def entryW : MealEntryD :=
  { short_name := "eggs", quantity := 2, unit := "pcs", totals := [("calories", 300)] }

/-- Concrete meal (username/date still unset, as on a freshly scraped object). -/
def mealW : MealD :=
  { username := "", date := 0, name := "breakfast"
    totals := [("calories", 500)], entries := [entryW] }

/-- Concrete cardio exercise record. -/
def cardioW : ExerciseRecord :=
  { name := "run", nutrition_information := [("minutes", 30), ("calories burned", 250)] }

/-- Concrete extracted day. -/
def dayW : MaterializedDay :=
  { username := "alice", date := 1
    meals := [none, some mealW]
    exercises := [[cardioW], []]
    goals := [("calories", 2000)]
    notes := { type := "food", body := "noted" }
    water := 1500
    measurements := [("Weight", 88)] }

/-- Concrete serializer standing in for `jsonpickle.encode`. -/
def encW : MaterializedDay → String := fun _ => "payloadW"

/-- Concrete deserializer standing in for `jsonpickle.decode`. -/
def decW : String → Option MaterializedDay := fun _ => some dayW

/-- Database state after one concrete ETL run against an empty database. -/
def stW1 : MfpDB :=
  match etl_run encW decW "alice" [1] [dayW] MfpDB.empty with
  | .ok s => s
  | .error _ => MfpDB.empty

/-- The payload stored for key `(u, d)`: `some p` when a local record with this
key exists (with `p` its possibly-NULL payload), `none` when none does. -/
def lookup_stored_payload (local_records : List RawRow) (u : String) (d : Date) :
    Option (Option String) :=
  (local_records.find? (fun r => r.1 == u && r.2.1 == d)).map (·.2.2)

/-- Concrete report row with an over-target (negative) actual deficit. -/
def rowW : ReportRow :=
  { day_number := 3, date := "11-Oct-2026", calories_target := some 2000
    deficit_target := some 500, deficit_actual := some (-200)
    deficit_accumulated := some (-50) }

/-- Report row with every nullable field NULL (a placeholder default). -/
def rowNull : ReportRow :=
  { day_number := 0, date := "", calories_target := none
    deficit_target := none, deficit_actual := none, deficit_accumulated := none }

/-- Concrete three-day aggregation input (middle day has no Meal data). -/
def days3 : List GoalDay :=
  [ { date := "d1", calories_target := 2000, calories_burned := 0, calories_consumed := some 2200 }
  , { date := "d2", calories_target := 2000, calories_burned := 0, calories_consumed := none }
  , { date := "d3", calories_target := 2000, calories_burned := 0, calories_consumed := some 1800 } ]

/-! # Theorems -/

/-! ## Helper lemmas -/

/-- The note comprehension contributes, per day, either nothing (empty body) or
exactly one tuple. -/
theorem extract_notes_eq_flatMap (days : List MaterializedDay) :
    extract_notes days = days.flatMap (fun day =>
      if day.notes.body = "" then []
      else [(day.username, day.date, day.notes.type, day.notes.body)]) := by
  induction days with
  | nil => rfl
  | cons day rest ih =>
    simp only [extract_notes, List.flatMap_cons] at ih ⊢
    by_cases h : day.notes.body = ""
    · simp [List.filter_cons, h, ih]
    · simp [List.filter_cons, h, ih]

/-! ## C8 — note rows are emitted iff the body is non-empty -/

/-- C8: note decomposition emits a Note row for a day if and only if that
day's note body is non-empty — a day with an empty body contributes no tuple,
and a day with a non-empty body contributes exactly one
`(user, date, type, body)` tuple. -/
theorem note_row_iff_nonempty_body (days : List MaterializedDay) :
    extract_notes days = days.flatMap (fun day =>
      if day.notes.body = "" then []
      else [(day.username, day.date, day.notes.type, day.notes.body)]) :=
  extract_notes_eq_flatMap days

/-! ## C7 — chart category selection and remaining-to-goal arithmetic -/

/-- C7: from the last report row, a negative `deficit_actual` selects the
`"warning"` category with the remaining-to-goal value
`end_goal - deficit_accumulated + |deficit_actual|` (the bar renders it with
the overage `deficit_actual` added back in its third segment), while a
non-negative `deficit_actual` selects the on-track `"accent"` category with
the direct subtraction `end_goal - deficit_accumulated - deficit_actual`. -/
theorem chart_category_and_remaining (end_goal : Int) (row : ReportRow) (da acc : Int)
    (h1 : row.deficit_actual = some da) (h2 : row.deficit_accumulated = some acc) :
    (da < 0 → calculate_chart_data end_goal row = some
      { date := row.date
        segments := (acc - |da|, |da|, (end_goal - acc + |da|) + da)
        category := "warning" }) ∧
    (0 ≤ da → calculate_chart_data end_goal row = some
      { date := row.date
        segments := (acc, da, end_goal - acc - da)
        category := "accent" }) := by
  constructor
  · intro hneg
    simp [calculate_chart_data, h1, h2, hneg]
  · intro hpos
    simp [calculate_chart_data, h1, h2, not_lt.mpr hpos]

/-- Witness for C7 at a concrete over-target row. -/
theorem chart_category_and_remaining_witness :
    calculate_chart_data 150000 rowW = some
      { date := rowW.date
        segments := ((-50 : Int) - |(-200 : Int)|, |(-200 : Int)|,
                     (150000 - (-50) + |(-200 : Int)|) + (-200))
        category := "warning" } :=
  (chart_category_and_remaining 150000 rowW (-200) (-50) rfl rfl).1 (by norm_num)

/-! ## C6 — a stale or empty post-filter series yields an empty report -/

/-- C6: report generation returns the empty report (`{}`, modelled `none`) —
rather than raising — exactly when, after filtering out null-deficit rows,
the series is empty or its most recent row's date is not exactly yesterday;
the same characterization holds for
`ProgressReport._prepare_nutrition_table`. -/
theorem stale_series_returns_empty_report (yesterday_str : String)
    (rows : List ReportRow) (end_goal : Int) (lim : Nat) :
    (mfp_select_daily_report_data yesterday_str rows end_goal lim = none ↔
      (report_window rows = [] ∨
        (report_window rows).getLast?.map ReportRow.date ≠ some yesterday_str)) ∧
    (prepare_nutrition_table yesterday_str lim rows = none ↔
      (report_window rows = [] ∨
        (report_window rows).getLast?.map ReportRow.date ≠ some yesterday_str)) := by
  cases h : (report_window rows).getLast? with
  | none =>
    have hnil : report_window rows = [] := List.getLast?_eq_none_iff.mp h
    constructor <;>
      simp [mfp_select_daily_report_data, prepare_nutrition_table, h, hnil]
  | some last =>
    have hne : report_window rows ≠ [] := by
      intro hw
      rw [hw] at h
      simp at h
    by_cases hd : last.date = yesterday_str
    · constructor <;>
        simp [mfp_select_daily_report_data, prepare_nutrition_table, h, hd, hne]
    · constructor <;>
        simp [mfp_select_daily_report_data, prepare_nutrition_table, h, hd, hne]

/-! ## C10 — `SQLiteExecuteMany.run` argument validation -/

/-- C10: `SQLiteExecuteMany.run` raises `ValueError` exactly when the database
path is missing/falsy, the query is missing/blank, or the data argument is
`None`; an empty data list is accepted, executes zero statements, and leaves
the database unchanged. -/
theorem sqlite_execute_many_run_valueError_iff {ρ : Type}
    (step : MfpDB → ρ → Except String MfpDB)
    (db query : Option String) (data : Option (List ρ)) (st : MfpDB) :
    ((∃ msg, sqlite_execute_many_run step db query data st = .error (.valueError msg)) ↔
      (db = none ∨ db = some "" ∨ query = none ∨ query = some "" ∨ data = none)) ∧
    (¬(db = none ∨ db = some "") → ¬(query = none ∨ query = some "") →
      sqlite_execute_many_run step db query (some []) st = .ok st) := by
  constructor
  · by_cases h1 : db = none ∨ db = some ""
    · simp only [sqlite_execute_many_run, if_pos h1]
      constructor
      · intro _
        rcases h1 with h | h
        · exact Or.inl h
        · exact Or.inr (Or.inl h)
      · intro _
        exact ⟨_, rfl⟩
    · by_cases h2 : query = none ∨ query = some ""
      · simp only [sqlite_execute_many_run, if_neg h1, if_pos h2]
        constructor
        · intro _
          rcases h2 with h | h
          · exact Or.inr (Or.inr (Or.inl h))
          · exact Or.inr (Or.inr (Or.inr (Or.inl h)))
        · intro _
          exact ⟨_, rfl⟩
      · cases data with
        | none =>
          simp only [sqlite_execute_many_run, if_neg h1, if_neg h2]
          exact ⟨fun _ => Or.inr (Or.inr (Or.inr (Or.inr trivial))), fun _ => ⟨_, rfl⟩⟩
        | some rows =>
          simp only [sqlite_execute_many_run, if_neg h1, if_neg h2]
          constructor
          · rintro ⟨msg, hmsg⟩
            cases hex : executeMany step rows st with
            | ok st' => rw [hex] at hmsg; exact absurd hmsg (by simp [Except.mapError])
            | error e => rw [hex] at hmsg; exact absurd hmsg (by simp [Except.mapError])
          · intro hcontra
            rcases hcontra with h | h | h | h | h
            · exact absurd (Or.inl h) h1
            · exact absurd (Or.inr h) h1
            · exact absurd (Or.inl h) h2
            · exact absurd (Or.inr h) h2
            · exact absurd h (by simp)
  · intro h1 h2
    simp only [sqlite_execute_many_run, if_neg h1, if_neg h2]
    rfl

/-- Witness for C10: with truthy `db`/`query` and an empty data list the run
succeeds and returns the state unchanged. -/
theorem sqlite_execute_many_run_witness :
    sqlite_execute_many_run (fun (s : MfpDB) (_ : WaterRow) => .ok s)
      (some "database/mfp.db") (some "INSERT") (some []) MfpDB.empty = .ok MfpDB.empty :=
  (sqlite_execute_many_run_valueError_iff (fun (s : MfpDB) (_ : WaterRow) => .ok s)
    (some "database/mfp.db") (some "INSERT") (some []) MfpDB.empty).2
    (by simp) (by simp)

/-! ## C2 — the Change Detector returns exactly the byte-changed snapshots -/

/-- Membership of an extracted tuple among the local records is exactly
byte-for-byte equality of its payload with the stored payload for its key,
provided local keys are unique. -/
theorem mem_local_iff_lookup (local_records : List RawRow) (t : RawRow)
    (hnodup : (local_records.map (fun r => (r.1, r.2.1))).Nodup) :
    t ∈ local_records ↔ lookup_stored_payload local_records t.1 t.2.1 = some t.2.2 := by
  constructor
  · intro hmem
    have hsome : (local_records.find? (fun r => r.1 == t.1 && r.2.1 == t.2.1)).isSome := by
      rw [List.find?_isSome]
      exact ⟨t, hmem, by simp⟩
    obtain ⟨r, hr⟩ := Option.isSome_iff_exists.mp hsome
    have hp := List.find?_some hr
    have hrmem := List.mem_of_find?_eq_some hr
    simp only [Bool.and_eq_true, beq_iff_eq] at hp
    have hkey : (fun r : RawRow => (r.1, r.2.1)) r = (fun r : RawRow => (r.1, r.2.1)) t := by
      simp [hp.1, hp.2]
    have hrt := List.inj_on_of_nodup_map hnodup hrmem hmem hkey
    rw [lookup_stored_payload, hr, hrt]
    rfl
  · intro hl
    rw [lookup_stored_payload] at hl
    obtain ⟨r, hr, hpay⟩ := Option.map_eq_some'.mp hl
    have hp := List.find?_some hr
    simp only [Bool.and_eq_true, beq_iff_eq] at hp
    have hrmem := List.mem_of_find?_eq_some hr
    have hrt : r = t := by
      obtain ⟨ru, rd, rp⟩ := r
      obtain ⟨tu, td, tp⟩ := t
      simp only at hp hpay
      simp [hp.1, hp.2, hpay]
    rw [← hrt]
    exact hrmem

/-- C2: over an identical key set (with unique stored keys), the Change
Detector returns exactly the subset of extracted snapshots whose serialized
payload differs byte-for-byte (tuple equality, not semantic equality) from
the corresponding stored payload — including every key whose stored payload
is absent (`lookup` yields `some none` for a stored NULL payload and `none`
for a missing row, and both differ from `some (some payload)`). -/
theorem change_detector_returns_exactly_changed
    (extracted_records local_records : List RawRow)
    (hkeys : ∀ t ∈ extracted_records,
      (t.1, t.2.1) ∈ local_records.map (fun r => (r.1, r.2.1)))
    (hnodup : (local_records.map (fun r => (r.1, r.2.1))).Nodup) :
    filter_new_or_changed_records extracted_records local_records =
      extracted_records.filter (fun t =>
        !(lookup_stored_payload local_records t.1 t.2.1 == some t.2.2)) := by
  unfold filter_new_or_changed_records
  apply List.filter_congr
  intro t ht
  have hiff := mem_local_iff_lookup local_records t hnodup
  have hcl : (local_records.contains t = true) ↔ t ∈ local_records := by
    simp [List.contains]
  congr 1
  rw [Bool.eq_iff_iff]
  constructor
  · intro hc
    rw [beq_iff_eq]
    exact hiff.mp (hcl.mp hc)
  · intro hb
    exact hcl.mpr (hiff.mpr (beq_iff_eq.mp hb))

/-- Witness for C2: an extracted tuple identical to the stored one yields `[]`;
one whose payload differs is returned. -/
theorem change_detector_witness :
    filter_new_or_changed_records [("alice", 1, some "AAA")] [("alice", 1, some "AAA")] = []
    ∧ filter_new_or_changed_records [("alice", 1, some "BBB")] [("alice", 1, some "AAA")]
        = [("alice", 1, some "BBB")] := by
  constructor
  · exact (change_detector_returns_exactly_changed _ _ (by decide) (by decide)).trans
      (by decide)
  · exact (change_detector_returns_exactly_changed _ _ (by decide) (by decide)).trans
      (by decide)

/-! ## C9 — decomposition and mutation of the source day objects -/

/-- Counterexample for C9: `extract_meals` mutates the source-provided day
objects — it attaches `username`/`date` to the contained meal objects in
place, so the day list after meal extraction differs from the input. -/
theorem extract_meals_mutates_input : (extract_meals [dayW]).2 ≠ [dayW] := by
  decide

/-- C9 (amended): meal extraction is the only decomposition step that mutates
its input, and it changes nothing except setting each contained non-placeholder
meal's `username` and `date` to the owning day's values; every other field of
every day is unchanged (the remaining extractors are read-only). -/
theorem decomposition_frame_modulo_meal_tagging (days : List MaterializedDay) :
    List.Forall₂ (fun d' d =>
      d'.username = d.username ∧ d'.date = d.date ∧ d'.exercises = d.exercises ∧
      d'.goals = d.goals ∧ d'.notes = d.notes ∧ d'.water = d.water ∧
      d'.measurements = d.measurements ∧
      d'.meals = d.meals.map (Option.map (fun meal =>
        { meal with username := d.username, date := d.date })))
      (extract_meals days).2 days := by
  induction days with
  | nil => exact List.Forall₂.nil
  | cons day rest ih =>
    refine List.Forall₂.cons ⟨rfl, rfl, rfl, rfl, rfl, rfl, rfl, ?_⟩ ih
    simp only [extract_meals]
    apply List.map_congr_left
    intro m _
    cases m <;> rfl

/-! ## C4 — parent-before-child write ordering in every schedule -/

/-- C4: in every execution schedule consistent with the flow's dependency
graph, the `RawDayData` (DaySnapshot) batch write precedes — hence commits
strictly before — every child-relation load of the same logical batch, and
the `Meals` batch write precedes the `MealEntries` load that references it. -/
theorem parent_before_child_commits (order : List EtlTask) (h : IsScheduleOf order) :
    order.indexOf EtlTask.loadRawDays < order.indexOf EtlTask.loadNotes ∧
    order.indexOf EtlTask.loadRawDays < order.indexOf EtlTask.loadWater ∧
    order.indexOf EtlTask.loadRawDays < order.indexOf EtlTask.loadGoals ∧
    order.indexOf EtlTask.loadRawDays < order.indexOf EtlTask.loadMeals ∧
    order.indexOf EtlTask.loadRawDays < order.indexOf EtlTask.loadMealEntries ∧
    order.indexOf EtlTask.loadRawDays < order.indexOf EtlTask.loadCardio ∧
    order.indexOf EtlTask.loadRawDays < order.indexOf EtlTask.loadStrength ∧
    order.indexOf EtlTask.loadRawDays < order.indexOf EtlTask.loadMeasures ∧
    order.indexOf EtlTask.loadMeals < order.indexOf EtlTask.loadMealEntries := by
  obtain ⟨-, he⟩ := h
  have hdes : order.indexOf EtlTask.loadRawDays < order.indexOf EtlTask.deserializeDays :=
    he (EtlTask.loadRawDays, EtlTask.deserializeDays) (by decide)
  have hnotes :=
    (he (EtlTask.deserializeDays, EtlTask.extractNotesT) (by decide)).trans
      (he (EtlTask.extractNotesT, EtlTask.loadNotes) (by decide))
  have hwater :=
    (he (EtlTask.deserializeDays, EtlTask.extractWaterT) (by decide)).trans
      (he (EtlTask.extractWaterT, EtlTask.loadWater) (by decide))
  have hgoals :=
    (he (EtlTask.deserializeDays, EtlTask.extractGoalsT) (by decide)).trans
      (he (EtlTask.extractGoalsT, EtlTask.loadGoals) (by decide))
  have hmeals :=
    (he (EtlTask.deserializeDays, EtlTask.extractMealsT) (by decide)).trans
      ((he (EtlTask.extractMealsT, EtlTask.extractMealRecordsT) (by decide)).trans
        (he (EtlTask.extractMealRecordsT, EtlTask.loadMeals) (by decide)))
  have hmentries : order.indexOf EtlTask.loadMeals < order.indexOf EtlTask.loadMealEntries :=
    he (EtlTask.loadMeals, EtlTask.loadMealEntries) (by decide)
  have hcardio :=
    (he (EtlTask.deserializeDays, EtlTask.extractCardioT) (by decide)).trans
      (he (EtlTask.extractCardioT, EtlTask.loadCardio) (by decide))
  have hstrength :=
    (he (EtlTask.deserializeDays, EtlTask.extractStrengthT) (by decide)).trans
      (he (EtlTask.extractStrengthT, EtlTask.loadStrength) (by decide))
  have hmeasures :=
    (he (EtlTask.deserializeDays, EtlTask.extractMeasuresT) (by decide)).trans
      (he (EtlTask.extractMeasuresT, EtlTask.loadMeasures) (by decide))
  exact ⟨hdes.trans hnotes, hdes.trans hwater, hdes.trans hgoals, hdes.trans hmeals,
    hdes.trans (hmeals.trans hmentries), hdes.trans hcardio, hdes.trans hstrength,
    hdes.trans hmeasures, hmentries⟩

/-- Witness for C4 at the flow's textual task order, which is a valid
schedule. -/
theorem parent_before_child_commits_witness :
    etl_tasks.indexOf EtlTask.loadRawDays < etl_tasks.indexOf EtlTask.loadNotes ∧
    etl_tasks.indexOf EtlTask.loadRawDays < etl_tasks.indexOf EtlTask.loadWater ∧
    etl_tasks.indexOf EtlTask.loadRawDays < etl_tasks.indexOf EtlTask.loadGoals ∧
    etl_tasks.indexOf EtlTask.loadRawDays < etl_tasks.indexOf EtlTask.loadMeals ∧
    etl_tasks.indexOf EtlTask.loadRawDays < etl_tasks.indexOf EtlTask.loadMealEntries ∧
    etl_tasks.indexOf EtlTask.loadRawDays < etl_tasks.indexOf EtlTask.loadCardio ∧
    etl_tasks.indexOf EtlTask.loadRawDays < etl_tasks.indexOf EtlTask.loadStrength ∧
    etl_tasks.indexOf EtlTask.loadRawDays < etl_tasks.indexOf EtlTask.loadMeasures ∧
    etl_tasks.indexOf EtlTask.loadMeals < etl_tasks.indexOf EtlTask.loadMealEntries :=
  parent_before_child_commits etl_tasks ⟨List.Perm.refl _, by decide⟩

/-! ## C5 — null-deficit filtering happens after whole-series numbering -/

/-- Length of the aggregated series equals the number of goal days. -/
theorem aggregate_go_length (resting : Int) :
    ∀ (days : List GoalDay) (idx : Nat) (acc : Int),
      (aggregate_go resting days idx acc).length = days.length := by
  intro days
  induction days with
  | nil => intro idx acc; rfl
  | cons d rest ih => intro idx acc; simp [aggregate_go, ih]

/-- Every aggregated row's `day_number` is its 1-based rank and its
`deficit_accumulated` is the running sum over the complete series prefix. -/
theorem aggregate_go_get (resting : Int) :
    ∀ (days : List GoalDay) (idx : Nat) (acc : Int) (i : Nat)
      (h : i < (aggregate_go resting days idx acc).length),
      ((aggregate_go resting days idx acc).get ⟨i, h⟩).day_number = (idx : Int) + i + 1 ∧
      ((aggregate_go resting days idx acc).get ⟨i, h⟩).deficit_accumulated =
        some (acc + deficit_prefix_sum resting (days.take (i + 1))) := by
  intro days
  induction days with
  | nil =>
    intro idx acc i h
    exact absurd h (by simp [aggregate_go])
  | cons d rest ih =>
    intro idx acc i h
    cases i with
    | zero =>
      constructor
      · simp [aggregate_go]
      · simp [aggregate_go, deficit_prefix_sum]
    | succ i =>
      have h' : i < (aggregate_go resting rest (idx + 1)
          (acc + (deficit_actual_of resting d).getD 0)).length := by
        have := h
        simp only [aggregate_go, List.length_cons] at this
        omega
      have := ih (idx + 1) (acc + (deficit_actual_of resting d).getD 0) i h'
      constructor
      · have h1 := this.1
        simp only [aggregate_go, List.get_cons_succ]
        rw [h1]
        push_cast
        ring
      · have h2 := this.2
        simp only [aggregate_go, List.get_cons_succ]
        rw [h2]
        simp only [List.take_succ_cons, deficit_prefix_sum, List.map_cons, List.sum_cons]
        congr 1
        ring

/-- C5: rows whose `deficit_actual` is NULL are excluded only after
`day_number` and `deficit_accumulated` have been computed over the complete
ordered series — the filtering (and the final table slice) removes rows but
never changes any field of a surviving row (they are sublists of the complete
series), and each row of the complete series carries the 1-based rank and the
running sum of the whole prefix. -/
theorem filtering_after_full_series_aggregation (resting : Int) (days : List GoalDay) :
    (report_window (aggregate_report_rows resting days)).Sublist
      (aggregate_report_rows resting days) ∧
    (∀ lim : Nat,
      (takeLastPy lim (report_window (aggregate_report_rows resting days))).Sublist
        (aggregate_report_rows resting days)) ∧
    ∀ (i : Nat) (h : i < (aggregate_report_rows resting days).length),
      ((aggregate_report_rows resting days).get ⟨i, h⟩).day_number = (i : Int) + 1 ∧
      ((aggregate_report_rows resting days).get ⟨i, h⟩).deficit_accumulated =
        some (deficit_prefix_sum resting (days.take (i + 1))) := by
  refine ⟨List.filter_sublist _, fun lim => ?_, fun i h => ?_⟩
  · have hsub : (takeLastPy lim (report_window (aggregate_report_rows resting days))).Sublist
        (report_window (aggregate_report_rows resting days)) := by
      unfold takeLastPy
      by_cases hl : lim = 0
      · simp [hl]
      · simp only [hl, if_neg hl]
        exact List.drop_sublist _ _
    exact hsub.trans (List.filter_sublist _)
  · have := aggregate_go_get resting days 0 0 i h
    refine ⟨?_, ?_⟩
    · show ((aggregate_go resting days 0 0).get ⟨i, h⟩).day_number = (i : Int) + 1
      rw [this.1]
      push_cast
      ring
    · show ((aggregate_go resting days 0 0).get ⟨i, h⟩).deficit_accumulated =
        some (deficit_prefix_sum resting (days.take (i + 1)))
      rw [this.2]
      ring_nf

/-- Witness for C5 over a concrete three-day series whose middle day has no
Meal data: the filter is a sublist of the complete series, and the complete
series' third row keeps rank 3 and the full running sum. -/
theorem filtering_after_full_series_aggregation_witness :
    (report_window (aggregate_report_rows 2500 days3)).Sublist
      (aggregate_report_rows 2500 days3) ∧
    ((aggregate_report_rows 2500 days3).getD 2 rowNull).day_number = 3 ∧
    ((aggregate_report_rows 2500 days3).getD 2 rowNull).deficit_accumulated = some 1000 := by
  have h2 : 2 < (aggregate_report_rows 2500 days3).length := by decide
  have hthm := filtering_after_full_series_aggregation 2500 days3
  refine ⟨hthm.1, ?_, ?_⟩
  · rw [List.getD_eq_get _ _ h2, (hthm.2.2 2 h2).1]
    decide
  · rw [List.getD_eq_get _ _ h2, (hthm.2.2 2 h2).2]
    decide

/-! ## Helper lemmas for the load machinery -/

/-- Bind on a successful `Except` computation. -/
theorem except_bind_ok {ε α β : Type} (a : α) (f : α → Except ε β) :
    (Except.ok a >>= f : Except ε β) = f a := rfl

/-- Bind on a failed `Except` computation. -/
theorem except_bind_error {ε α β : Type} (e : ε) (f : α → Except ε β) :
    (Except.error e >>= f : Except ε β) = Except.error e := rfl

/-- Key filtering distributes over append. -/
theorem atKey_append (user : ρ → String) (dt : ρ → Date) (u : String) (d : Date)
    (l l' : List ρ) :
    atKey user dt u d (l ++ l') = atKey user dt u d l ++ atKey user dt u d l' :=
  List.filter_append _ _

/-- Nothing remains at a key after erasing that key. -/
theorem atKey_eraseKey_self (user : ρ → String) (dt : ρ → Date) (u : String) (d : Date)
    (l : List ρ) :
    atKey user dt u d (eraseKey user dt u d l) = [] := by
  unfold atKey eraseKey
  rw [List.filter_filter]
  apply List.filter_eq_nil_iff.mpr
  intro r _
  cases hc : (user r == u && dt r == d) <;> simp [hc]

/-- Erasing a different key leaves the rows at a key unchanged. -/
theorem atKey_eraseKey_ne (user : ρ → String) (dt : ρ → Date) {u u' : String}
    {d d' : Date} (h : ¬(u' = u ∧ d' = d)) (l : List ρ) :
    atKey user dt u d (eraseKey user dt u' d' l) = atKey user dt u d l := by
  unfold atKey eraseKey
  rw [List.filter_filter]
  apply List.filter_congr
  intro r _
  cases h1 : (user r == u && dt r == d)
  · simp
  · rw [Bool.and_eq_true, beq_iff_eq, beq_iff_eq] at h1
    simp only [Bool.true_and]
    cases h2 : (user r == u' && dt r == d')
    · rfl
    · rw [Bool.and_eq_true, beq_iff_eq, beq_iff_eq] at h2
      exact absurd ⟨by rw [← h2.1]; exact h1.1, by rw [← h2.2]; exact h1.2⟩ h

/-- A singleton at its own key. -/
theorem atKey_singleton_self (user : ρ → String) (dt : ρ → Date) (r : ρ) :
    atKey user dt (user r) (dt r) [r] = [r] := by
  simp [atKey]

/-- A singleton at a different key. -/
theorem atKey_singleton_ne (user : ρ → String) (dt : ρ → Date) {u : String} {d : Date}
    (r : ρ) (h : ¬(user r = u ∧ dt r = d)) :
    atKey user dt u d [r] = [] := by
  unfold atKey
  rw [List.filter_eq_nil_iff]
  intro a ha
  rw [List.mem_singleton] at ha
  subst ha
  cases h1 : (user a == u && dt a == d)
  · simp
  · rw [Bool.and_eq_true, beq_iff_eq, beq_iff_eq] at h1
    exact absurd h1 h

/-- A table whose rows all have a `RawDayData` parent has no rows at a key
with no parent row. -/
theorem atKey_eq_nil_of_refsRaw (user : ρ → String) (dt : ρ → Date)
    {l : List ρ} {rawtbl : List RawRow} (h : refsRaw user dt l rawtbl)
    {u : String} {d : Date}
    (hnone : rawtbl.any (fun x => x.1 == u && x.2.1 == d) = false) :
    atKey user dt u d l = [] := by
  unfold atKey
  rw [List.filter_eq_nil_iff]
  intro r hr
  cases h1 : (user r == u && dt r == d)
  · simp
  · rw [Bool.and_eq_true, beq_iff_eq, beq_iff_eq] at h1
    obtain ⟨w, hw, hw1, hw2⟩ := h r hr
    have hany : rawtbl.any (fun x => x.1 == u && x.2.1 == d) = true := by
      rw [List.any_eq_true]
      refine ⟨w, hw, ?_⟩
      rw [Bool.and_eq_true, beq_iff_eq, beq_iff_eq, hw1, hw2]
      exact ⟨h1.1, h1.2⟩
    rw [hany] at hnone
    exact absurd hnone (by simp)

/-- The meal-entry cascade at a different day key leaves a key's entries
unchanged. -/
theorem atKey_entries_cascade_ne (st : MfpDB) {u' : String} {d' : Date}
    {u : String} {d : Date} (h : ¬(u' = u ∧ d' = d)) :
    atKey (·.userid) (·.date) u d (cascade_delete_day u' d' st).mealEntries =
      atKey (·.userid) (·.date) u d st.mealEntries := by
  unfold atKey cascade_delete_day
  rw [List.filter_filter]
  apply List.filter_congr
  intro e _
  cases h1 : (e.userid == u && e.date == d)
  · simp
  · rw [Bool.and_eq_true, beq_iff_eq, beq_iff_eq] at h1
    simp only [Bool.true_and]
    cases h2 : (e.userid == u' && e.date == d' &&
        st.meals.any (fun m => m.userid == u' && m.date == d' && m.name == e.meal_name))
    · rfl
    · rw [Bool.and_eq_true, Bool.and_eq_true, beq_iff_eq, beq_iff_eq] at h2
      exact absurd ⟨by rw [← h2.1.1]; exact h1.1, by rw [← h2.1.2]; exact h1.2⟩ h

/-- When every entry at a key references an existing meal at that key, the
meal-entry cascade for that key removes them all. -/
theorem atKey_entries_cascade_self (st : MfpDB) (u : String) (d : Date)
    (hcons : ∀ e ∈ st.mealEntries, e.userid = u → e.date = d →
      ∃ m ∈ st.meals, m.userid = u ∧ m.date = d ∧ m.name = e.meal_name) :
    atKey (·.userid) (·.date) u d (cascade_delete_day u d st).mealEntries = [] := by
  unfold atKey cascade_delete_day
  rw [List.filter_filter]
  rw [List.filter_eq_nil_iff]
  intro e he
  cases h1 : (e.userid == u && e.date == d)
  · simp [h1]
  · rw [Bool.and_eq_true, beq_iff_eq, beq_iff_eq] at h1
    obtain ⟨m, hm, hmu, hmd, hmn⟩ := hcons e he h1.1 h1.2
    have hany : st.meals.any (fun m => m.userid == u && m.date == d && m.name == e.meal_name)
        = true := by
      rw [List.any_eq_true]
      refine ⟨m, hm, ?_⟩
      rw [Bool.and_eq_true, Bool.and_eq_true, beq_iff_eq, beq_iff_eq, beq_iff_eq]
      exact ⟨⟨hmu, hmd⟩, hmn⟩
    simp [h1.1, h1.2, hany]

/-- After the cascade for a key (given referentially consistent meal entries),
no surviving entry carries that key. -/
theorem entries_cascade_key_ne (st : MfpDB) (u : String) (d : Date)
    (hec : EntriesConsistent st) :
    ∀ e ∈ (cascade_delete_day u d st).mealEntries, ¬(e.userid = u ∧ e.date = d) := by
  intro e he hk
  unfold cascade_delete_day at he
  rw [List.mem_filter] at he
  obtain ⟨hmem, hkeep⟩ := he
  obtain ⟨m, hm, hmu, hmd, hmn⟩ := hec e hmem
  have hany : st.meals.any (fun m => m.userid == u && m.date == d && m.name == e.meal_name)
      = true := by
    rw [List.any_eq_true]
    refine ⟨m, hm, ?_⟩
    rw [Bool.and_eq_true, Bool.and_eq_true, beq_iff_eq, beq_iff_eq, beq_iff_eq]
    exact ⟨⟨by rw [hmu]; exact hk.1, by rw [hmd]; exact hk.2⟩, hmn⟩
  rw [hk.1, hk.2] at hkeep
  simp [hany] at hkeep

/-- Projection of the cascade on `notes`. -/
theorem cascade_notes (u : String) (d : Date) (st : MfpDB) :
    (cascade_delete_day u d st).notes = eraseKey (·.1) (·.2.1) u d st.notes := rfl

/-- Projection of the cascade on `water`. -/
theorem cascade_water (u : String) (d : Date) (st : MfpDB) :
    (cascade_delete_day u d st).water = eraseKey (·.1) (·.2.1) u d st.water := rfl

/-- Projection of the cascade on `goals`. -/
theorem cascade_goals (u : String) (d : Date) (st : MfpDB) :
    (cascade_delete_day u d st).goals = eraseKey (·.userid) (·.date) u d st.goals := rfl

/-- Projection of the cascade on `meals`. -/
theorem cascade_meals (u : String) (d : Date) (st : MfpDB) :
    (cascade_delete_day u d st).meals = eraseKey (·.userid) (·.date) u d st.meals := rfl

/-- Projection of the cascade on `cardioExercises`. -/
theorem cascade_cardio (u : String) (d : Date) (st : MfpDB) :
    (cascade_delete_day u d st).cardioExercises =
      eraseKey (·.userid) (·.date) u d st.cardioExercises := rfl

/-- Projection of the cascade on `strengthExercises`. -/
theorem cascade_strength (u : String) (d : Date) (st : MfpDB) :
    (cascade_delete_day u d st).strengthExercises =
      eraseKey (·.userid) (·.date) u d st.strengthExercises := rfl

/-- Projection of the cascade on `measurements`. -/
theorem cascade_measurements (u : String) (d : Date) (st : MfpDB) :
    (cascade_delete_day u d st).measurements =
      eraseKey (·.userid) (·.date) u d st.measurements := rfl

/-- Projection of the cascade on `rawDayData`. -/
theorem cascade_raw (u : String) (d : Date) (st : MfpDB) :
    (cascade_delete_day u d st).rawDayData = eraseKey (·.1) (·.2.1) u d st.rawDayData := rfl

/-- The upsert on a conflicting key: cascaded delete, then insert. -/
theorem ior_eq_pos (st : MfpDB) (r : RawRow)
    (hc : st.rawDayData.any (fun x => x.1 == r.1 && x.2.1 == r.2.1) = true) :
    insert_or_replace_rawdaydata st r =
      { cascade_delete_day r.1 r.2.1 st with
        rawDayData := (cascade_delete_day r.1 r.2.1 st).rawDayData ++ [r] } := by
  rw [insert_or_replace_rawdaydata, if_pos hc]

/-- The upsert without a conflict: a plain insert. -/
theorem ior_eq_neg (st : MfpDB) (r : RawRow)
    (hc : ¬ st.rawDayData.any (fun x => x.1 == r.1 && x.2.1 == r.2.1) = true) :
    insert_or_replace_rawdaydata st r = { st with rawDayData := st.rawDayData ++ [r] } := by
  rw [insert_or_replace_rawdaydata, if_neg hc]

/-- A list none of whose rows matches a key has no rows at that key. -/
theorem atKey_eq_nil_of_any_false (user : ρ → String) (dt : ρ → Date)
    {u : String} {d : Date} {l : List ρ}
    (h : l.any (fun x => user x == u && dt x == d) = false) :
    atKey user dt u d l = [] := by
  unfold atKey
  rw [List.filter_eq_nil_iff]
  intro x hx
  rw [List.any_eq_false] at h
  exact fun hb => h x hx hb

/-- Referential consistency is preserved when the parent table only grows. -/
theorem refsRaw_mono (user : ρ → String) (dt : ρ → Date) {l : List ρ}
    {rawtbl : List RawRow} (tail : List RawRow) (h : refsRaw user dt l rawtbl) :
    refsRaw user dt l (rawtbl ++ tail) :=
  fun c hc =>
    let ⟨w, hw, h1, h2⟩ := h c hc
    ⟨w, List.mem_append_left _ hw, h1, h2⟩

/-- Referential consistency of a day-keyed child table survives a cascaded
day deletion followed by any parent insertions. -/
theorem refsRaw_after_cascade (user : ρ → String) (dt : ρ → Date) (u : String) (d : Date)
    {l : List ρ} {rawtbl : List RawRow} (tail : List RawRow)
    (h : refsRaw user dt l rawtbl) :
    refsRaw user dt (eraseKey user dt u d l)
      (eraseKey (·.1) (·.2.1) u d rawtbl ++ tail) := by
  intro c hc
  unfold eraseKey at hc
  rw [List.mem_filter] at hc
  obtain ⟨hcm, hkept⟩ := hc
  obtain ⟨w, hwmem, hw1, hw2⟩ := h c hcm
  refine ⟨w, List.mem_append_left _ ?_, hw1, hw2⟩
  unfold eraseKey
  rw [List.mem_filter]
  refine ⟨hwmem, ?_⟩
  show (!(w.1 == u && w.2.1 == d)) = true
  rw [hw1, hw2]
  exact hkept

/-- After the upsert of `r`, the raw rows at `r`'s key are exactly `[r]`. -/
theorem ior_rawAt_self (st : MfpDB) (r : RawRow) :
    atKey (·.1) (·.2.1) r.1 r.2.1 (insert_or_replace_rawdaydata st r).rawDayData = [r] := by
  by_cases hc : st.rawDayData.any (fun x => x.1 == r.1 && x.2.1 == r.2.1) = true
  · rw [ior_eq_pos st r hc]
    show atKey (·.1) (·.2.1) r.1 r.2.1 ((cascade_delete_day r.1 r.2.1 st).rawDayData ++ [r])
      = [r]
    rw [atKey_append, cascade_raw, atKey_eraseKey_self]
    show atKey (·.1) (·.2.1) r.1 r.2.1 [r] = [r]
    simp [atKey]
  · rw [ior_eq_neg st r hc]
    show atKey (·.1) (·.2.1) r.1 r.2.1 (st.rawDayData ++ [r]) = [r]
    have hfalse : st.rawDayData.any (fun x => x.1 == r.1 && x.2.1 == r.2.1) = false :=
      Bool.not_eq_true _ ▸ hc
    have h0 : atKey (·.1) (·.2.1) r.1 r.2.1 st.rawDayData = [] :=
      atKey_eq_nil_of_any_false _ _ hfalse
    rw [atKey_append, h0]
    simp [atKey]

/-- The upsert of `r` leaves the raw rows at every other key unchanged. -/
theorem ior_rawAt_ne (st : MfpDB) (r : RawRow) {u : String} {d : Date}
    (h : ¬(r.1 = u ∧ r.2.1 = d)) :
    atKey (·.1) (·.2.1) u d (insert_or_replace_rawdaydata st r).rawDayData =
      atKey (·.1) (·.2.1) u d st.rawDayData := by
  have hsing : atKey (·.1) (·.2.1) u d [r] = [] := atKey_singleton_ne _ _ r h
  by_cases hc : st.rawDayData.any (fun x => x.1 == r.1 && x.2.1 == r.2.1) = true
  · rw [ior_eq_pos st r hc]
    show atKey (·.1) (·.2.1) u d ((cascade_delete_day r.1 r.2.1 st).rawDayData ++ [r]) = _
    rw [atKey_append, cascade_raw, atKey_eraseKey_ne _ _ h, hsing, List.append_nil]
  · rw [ior_eq_neg st r hc]
    show atKey (·.1) (·.2.1) u d (st.rawDayData ++ [r]) = _
    rw [atKey_append, hsing, List.append_nil]

/-- The upsert of `r` leaves the children at every other key unchanged. -/
theorem ior_childrenAt_ne (st : MfpDB) (r : RawRow) {u : String} {d : Date}
    (h : ¬(r.1 = u ∧ r.2.1 = d)) :
    childrenAt (insert_or_replace_rawdaydata st r) u d = childrenAt st u d := by
  by_cases hc : st.rawDayData.any (fun x => x.1 == r.1 && x.2.1 == r.2.1) = true
  · rw [ior_eq_pos st r hc]
    show childrenAt (cascade_delete_day r.1 r.2.1 st) u d = childrenAt st u d
    unfold childrenAt
    rw [cascade_notes, cascade_water, cascade_goals, cascade_meals, cascade_cardio,
      cascade_strength, cascade_measurements, atKey_entries_cascade_ne st h]
    rw [atKey_eraseKey_ne _ _ h, atKey_eraseKey_ne _ _ h, atKey_eraseKey_ne _ _ h,
      atKey_eraseKey_ne _ _ h, atKey_eraseKey_ne _ _ h, atKey_eraseKey_ne _ _ h,
      atKey_eraseKey_ne _ _ h]
  · rw [ior_eq_neg st r hc]
    rfl

/-- After the upsert of `r` against a referentially consistent state, no child
row remains at `r`'s key: the conflicting snapshot's children were cascade
deleted (and a brand-new snapshot had none). -/
theorem ior_childrenAt_self (st : MfpDB) (r : RawRow) (hfk : FKConsistent st) :
    childrenAt (insert_or_replace_rawdaydata st r) r.1 r.2.1 = DayChildren.empty := by
  obtain ⟨hn, hw, hg, hm, hc2, hs, hms, hme, hec⟩ := hfk
  by_cases hc : st.rawDayData.any (fun x => x.1 == r.1 && x.2.1 == r.2.1) = true
  · rw [ior_eq_pos st r hc]
    show childrenAt (cascade_delete_day r.1 r.2.1 st) r.1 r.2.1 = DayChildren.empty
    unfold childrenAt DayChildren.empty
    rw [cascade_notes, cascade_water, cascade_goals, cascade_meals, cascade_cardio,
      cascade_strength, cascade_measurements]
    rw [atKey_eraseKey_self, atKey_eraseKey_self, atKey_eraseKey_self, atKey_eraseKey_self,
      atKey_eraseKey_self, atKey_eraseKey_self, atKey_eraseKey_self]
    rw [atKey_entries_cascade_self st r.1 r.2.1 ?hcons]
    case hcons =>
      intro e he h1 h2
      obtain ⟨m, hm', p1, p2, p3⟩ := hec e he
      exact ⟨m, hm', by rw [p1, h1], by rw [p2, h2], p3⟩
  · rw [ior_eq_neg st r hc]
    have hfalse := Bool.not_eq_true _ ▸ hc
    show childrenAt st r.1 r.2.1 = DayChildren.empty
    unfold childrenAt DayChildren.empty
    rw [atKey_eq_nil_of_refsRaw _ _ hn hfalse, atKey_eq_nil_of_refsRaw _ _ hw hfalse,
      atKey_eq_nil_of_refsRaw _ _ hg hfalse, atKey_eq_nil_of_refsRaw _ _ hm hfalse,
      atKey_eq_nil_of_refsRaw _ _ hme hfalse, atKey_eq_nil_of_refsRaw _ _ hc2 hfalse,
      atKey_eq_nil_of_refsRaw _ _ hs hfalse, atKey_eq_nil_of_refsRaw _ _ hms hfalse]

/-- The raw-day upsert preserves all declared foreign keys. -/
theorem ior_preserves_fk (st : MfpDB) (r : RawRow) (hfk : FKConsistent st) :
    FKConsistent (insert_or_replace_rawdaydata st r) := by
  obtain ⟨hn, hw, hg, hm, hc2, hs, hms, hme, hec⟩ := hfk
  by_cases hc : st.rawDayData.any (fun x => x.1 == r.1 && x.2.1 == r.2.1) = true
  · rw [ior_eq_pos st r hc]
    have hkeyne := entries_cascade_key_ne st r.1 r.2.1 hec
    refine ⟨?_, ?_, ?_, ?_, ?_, ?_, ?_, ?_, ?_⟩
    · exact refsRaw_after_cascade _ _ _ _ [r] hn
    · exact refsRaw_after_cascade _ _ _ _ [r] hw
    · exact refsRaw_after_cascade _ _ _ _ [r] hg
    · exact refsRaw_after_cascade _ _ _ _ [r] hm
    · exact refsRaw_after_cascade _ _ _ _ [r] hc2
    · exact refsRaw_after_cascade _ _ _ _ [r] hs
    · exact refsRaw_after_cascade _ _ _ _ [r] hms
    · -- mealEntries reference RawDayData
      intro e he
      have hne := hkeyne e he
      have hmem : e ∈ st.mealEntries := by
        have := he
        unfold cascade_delete_day at this
        exact List.mem_of_mem_filter this
      obtain ⟨w, hwmem, hw1, hw2⟩ := hme e hmem
      have hw1' : w.1 = e.userid := hw1
      have hw2' : w.2.1 = e.date := hw2
      refine ⟨w, List.mem_append_left _ ?_, hw1, hw2⟩
      show w ∈ eraseKey (·.1) (·.2.1) r.1 r.2.1 st.rawDayData
      unfold eraseKey
      rw [List.mem_filter]
      refine ⟨hwmem, ?_⟩
      cases h2 : (w.1 == r.1 && w.2.1 == r.2.1)
      · rfl
      · rw [Bool.and_eq_true, beq_iff_eq, beq_iff_eq] at h2
        exact absurd ⟨by rw [← hw1']; exact h2.1, by rw [← hw2']; exact h2.2⟩ hne
    · -- mealEntries reference Meals
      intro e he
      have hne := hkeyne e he
      have hmem : e ∈ st.mealEntries := by
        have := he
        unfold cascade_delete_day at this
        exact List.mem_of_mem_filter this
      obtain ⟨m, hm', p1, p2, p3⟩ := hec e hmem
      refine ⟨m, ?_, p1, p2, p3⟩
      show m ∈ eraseKey (·.userid) (·.date) r.1 r.2.1 st.meals
      unfold eraseKey
      rw [List.mem_filter]
      refine ⟨hm', ?_⟩
      cases h2 : (m.userid == r.1 && m.date == r.2.1)
      · rfl
      · rw [Bool.and_eq_true, beq_iff_eq, beq_iff_eq] at h2
        refine absurd ⟨?_, ?_⟩ hne
        · rw [← p1]; exact h2.1
        · rw [← p2]; exact h2.2
  · rw [ior_eq_neg st r hc]
    exact ⟨refsRaw_mono _ _ [r] hn, refsRaw_mono _ _ [r] hw, refsRaw_mono _ _ [r] hg,
      refsRaw_mono _ _ [r] hm, refsRaw_mono _ _ [r] hc2, refsRaw_mono _ _ [r] hs,
      refsRaw_mono _ _ [r] hms, refsRaw_mono _ _ [r] hme, hec⟩

/-- The raw batch write never fails, and equals the pure fold. -/
theorem executeMany_raw_eq_fold (recs : List RawRow) (st : MfpDB) :
    executeMany (fun s r => .ok (insert_or_replace_rawdaydata s r)) recs st =
      .ok (rawFold recs st) := by
  induction recs generalizing st with
  | nil => rfl
  | cons r rest ih => simp [executeMany, rawFold, List.foldl_cons, ih]

/-- The raw-batch fold preserves all declared foreign keys. -/
theorem rawFold_preserves_fk (recs : List RawRow) (st : MfpDB) (hfk : FKConsistent st) :
    FKConsistent (rawFold recs st) := by
  induction recs generalizing st with
  | nil => exact hfk
  | cons r rest ih => exact ih _ (ior_preserves_fk st r hfk)

/-- A raw batch touching only other keys leaves a key's raw rows and children
unchanged. -/
theorem rawFold_other_keys (recs : List RawRow) (st : MfpDB) {u : String} {d : Date}
    (h : ∀ r' ∈ recs, ¬(r'.1 = u ∧ r'.2.1 = d)) :
    atKey (·.1) (·.2.1) u d (rawFold recs st).rawDayData =
        atKey (·.1) (·.2.1) u d st.rawDayData ∧
      childrenAt (rawFold recs st) u d = childrenAt st u d := by
  induction recs generalizing st with
  | nil => exact ⟨rfl, rfl⟩
  | cons r rest ih =>
    have hr := h r (List.mem_cons_self r rest)
    have hrest := fun r' hr' => h r' (List.mem_cons_of_mem r hr')
    obtain ⟨ihr, ihc⟩ := ih (insert_or_replace_rawdaydata st r) hrest
    exact ⟨ihr.trans (ior_rawAt_ne st r hr), ihc.trans (ior_childrenAt_ne st r hr)⟩

/-- After a raw batch with pairwise-distinct keys over a referentially
consistent state, each written record is the sole raw row at its key and its
key has no children left. -/
theorem rawFold_processed_key (recs : List RawRow) (st : MfpDB)
    (hnodup : (recs.map (fun x => (x.1, x.2.1))).Nodup) (hfk : FKConsistent st)
    {r : RawRow} (hr : r ∈ recs) :
    atKey (·.1) (·.2.1) r.1 r.2.1 (rawFold recs st).rawDayData = [r] ∧
      childrenAt (rawFold recs st) r.1 r.2.1 = DayChildren.empty := by
  induction recs generalizing st with
  | nil => exact absurd hr (List.not_mem_nil r)
  | cons q rest ih =>
    rw [List.map_cons, List.nodup_cons] at hnodup
    obtain ⟨hq, hrest⟩ := hnodup
    rcases List.mem_cons.mp hr with hqr | hmem
    · subst hqr
      have hnotin : ∀ r' ∈ rest, ¬(r'.1 = r.1 ∧ r'.2.1 = r.2.1) := by
        intro r' hr' hk
        exact hq (List.mem_map.mpr ⟨r', hr', by rw [hk.1, hk.2]⟩)
      obtain ⟨h1, h2⟩ := rawFold_other_keys rest (insert_or_replace_rawdaydata st r) hnotin
      exact ⟨h1.trans (ior_rawAt_self st r), h2.trans (ior_childrenAt_self st r hfk)⟩
    · exact ih (insert_or_replace_rawdaydata st q) hrest (ior_preserves_fk st q hfk) hmem

/-- A successful `Notes` insert appends the row. -/
theorem insert_notes_step_ok {st : MfpDB} {r : NoteRow} {st1 : MfpDB}
    (h : insert_notes_step st r = .ok st1) : st1 = { st with notes := st.notes ++ [r] } := by
  unfold insert_notes_step at h
  split_ifs at h
  exact (Except.ok.inj h).symm

/-- A successful `Water` insert appends the row. -/
theorem insert_water_step_ok {st : MfpDB} {r : WaterRow} {st1 : MfpDB}
    (h : insert_water_step st r = .ok st1) : st1 = { st with water := st.water ++ [r] } := by
  unfold insert_water_step at h
  split_ifs at h
  exact (Except.ok.inj h).symm

/-- A successful `Goals` insert appends the row. -/
theorem insert_goals_step_ok {st : MfpDB} {r : GoalRow} {st1 : MfpDB}
    (h : insert_goals_step st r = .ok st1) : st1 = { st with goals := st.goals ++ [r] } := by
  unfold insert_goals_step at h
  split_ifs at h
  exact (Except.ok.inj h).symm

/-- A successful `Meals` insert appends the row. -/
theorem insert_meals_step_ok {st : MfpDB} {r : MealRow} {st1 : MfpDB}
    (h : insert_meals_step st r = .ok st1) : st1 = { st with meals := st.meals ++ [r] } := by
  unfold insert_meals_step at h
  split_ifs at h
  exact (Except.ok.inj h).symm

/-- A successful `MealEntries` insert appends the row. -/
theorem insert_mealentries_step_ok {st : MfpDB} {r : MealEntryRow} {st1 : MfpDB}
    (h : insert_mealentries_step st r = .ok st1) :
    st1 = { st with mealEntries := st.mealEntries ++ [r] } := by
  unfold insert_mealentries_step at h
  split_ifs at h
  exact (Except.ok.inj h).symm

/-- A successful `CardioExercises` insert appends the row. -/
theorem insert_cardioexercises_step_ok {st : MfpDB} {r : CardioRow} {st1 : MfpDB}
    (h : insert_cardioexercises_step st r = .ok st1) :
    st1 = { st with cardioExercises := st.cardioExercises ++ [r] } := by
  unfold insert_cardioexercises_step at h
  split_ifs at h
  exact (Except.ok.inj h).symm

/-- A successful `StrengthExercises` insert appends the row. -/
theorem insert_strengthexercises_step_ok {st : MfpDB} {r : StrengthRow} {st1 : MfpDB}
    (h : insert_strengthexercises_step st r = .ok st1) :
    st1 = { st with strengthExercises := st.strengthExercises ++ [r] } := by
  unfold insert_strengthexercises_step at h
  split_ifs at h
  exact (Except.ok.inj h).symm

/-- A successful `Measurements` INSERT OR REPLACE replaces at the full key. -/
theorem insert_measurements_step_ok {st : MfpDB} {r : MeasurementRow} {st1 : MfpDB}
    (h : insert_measurements_step st r = .ok st1) :
    st1 = { st with measurements := measReplace st.measurements r } := by
  unfold insert_measurements_step at h
  split_ifs at h
  exact (Except.ok.inj h).symm

/-- A successful `Notes` batch appends all rows. -/
theorem executeMany_notes_ok {data : List NoteRow} {st st' : MfpDB}
    (h : executeMany insert_notes_step data st = .ok st') :
    st' = { st with notes := st.notes ++ data } := by
  induction data generalizing st with
  | nil =>
    have : st = st' := Except.ok.inj h
    simp [← this]
  | cons r rest ih =>
    unfold executeMany at h
    cases hs : insert_notes_step st r with
    | error e => rw [hs] at h; exact absurd h (by simp)
    | ok st1 =>
      rw [hs] at h
      rw [ih h, insert_notes_step_ok hs]
      simp

/-- A successful `Water` batch appends all rows. -/
theorem executeMany_water_ok {data : List WaterRow} {st st' : MfpDB}
    (h : executeMany insert_water_step data st = .ok st') :
    st' = { st with water := st.water ++ data } := by
  induction data generalizing st with
  | nil =>
    have : st = st' := Except.ok.inj h
    simp [← this]
  | cons r rest ih =>
    unfold executeMany at h
    cases hs : insert_water_step st r with
    | error e => rw [hs] at h; exact absurd h (by simp)
    | ok st1 =>
      rw [hs] at h
      rw [ih h, insert_water_step_ok hs]
      simp

/-- A successful `Goals` batch appends all rows. -/
theorem executeMany_goals_ok {data : List GoalRow} {st st' : MfpDB}
    (h : executeMany insert_goals_step data st = .ok st') :
    st' = { st with goals := st.goals ++ data } := by
  induction data generalizing st with
  | nil =>
    have : st = st' := Except.ok.inj h
    simp [← this]
  | cons r rest ih =>
    unfold executeMany at h
    cases hs : insert_goals_step st r with
    | error e => rw [hs] at h; exact absurd h (by simp)
    | ok st1 =>
      rw [hs] at h
      rw [ih h, insert_goals_step_ok hs]
      simp

/-- A successful `Meals` batch appends all rows. -/
theorem executeMany_meals_ok {data : List MealRow} {st st' : MfpDB}
    (h : executeMany insert_meals_step data st = .ok st') :
    st' = { st with meals := st.meals ++ data } := by
  induction data generalizing st with
  | nil =>
    have : st = st' := Except.ok.inj h
    simp [← this]
  | cons r rest ih =>
    unfold executeMany at h
    cases hs : insert_meals_step st r with
    | error e => rw [hs] at h; exact absurd h (by simp)
    | ok st1 =>
      rw [hs] at h
      rw [ih h, insert_meals_step_ok hs]
      simp

/-- A successful `MealEntries` batch appends all rows. -/
theorem executeMany_mealentries_ok {data : List MealEntryRow} {st st' : MfpDB}
    (h : executeMany insert_mealentries_step data st = .ok st') :
    st' = { st with mealEntries := st.mealEntries ++ data } := by
  induction data generalizing st with
  | nil =>
    have : st = st' := Except.ok.inj h
    simp [← this]
  | cons r rest ih =>
    unfold executeMany at h
    cases hs : insert_mealentries_step st r with
    | error e => rw [hs] at h; exact absurd h (by simp)
    | ok st1 =>
      rw [hs] at h
      rw [ih h, insert_mealentries_step_ok hs]
      simp

/-- A successful `CardioExercises` batch appends all rows. -/
theorem executeMany_cardio_ok {data : List CardioRow} {st st' : MfpDB}
    (h : executeMany insert_cardioexercises_step data st = .ok st') :
    st' = { st with cardioExercises := st.cardioExercises ++ data } := by
  induction data generalizing st with
  | nil =>
    have : st = st' := Except.ok.inj h
    simp [← this]
  | cons r rest ih =>
    unfold executeMany at h
    cases hs : insert_cardioexercises_step st r with
    | error e => rw [hs] at h; exact absurd h (by simp)
    | ok st1 =>
      rw [hs] at h
      rw [ih h, insert_cardioexercises_step_ok hs]
      simp

/-- A successful `StrengthExercises` batch appends all rows. -/
theorem executeMany_strength_ok {data : List StrengthRow} {st st' : MfpDB}
    (h : executeMany insert_strengthexercises_step data st = .ok st') :
    st' = { st with strengthExercises := st.strengthExercises ++ data } := by
  induction data generalizing st with
  | nil =>
    have : st = st' := Except.ok.inj h
    simp [← this]
  | cons r rest ih =>
    unfold executeMany at h
    cases hs : insert_strengthexercises_step st r with
    | error e => rw [hs] at h; exact absurd h (by simp)
    | ok st1 =>
      rw [hs] at h
      rw [ih h, insert_strengthexercises_step_ok hs]
      simp

/-- A successful `Measurements` batch is the fold of per-row replacement. -/
theorem executeMany_measurements_ok {data : List MeasurementRow} {st st' : MfpDB}
    (h : executeMany insert_measurements_step data st = .ok st') :
    st' = { st with measurements := measFold st.measurements data } := by
  induction data generalizing st with
  | nil =>
    have : st = st' := Except.ok.inj h
    simp [← this, measFold]
  | cons r rest ih =>
    unfold executeMany at h
    cases hs : insert_measurements_step st r with
    | error e => rw [hs] at h; exact absurd h (by simp)
    | ok st1 =>
      rw [hs] at h
      rw [ih h, insert_measurements_step_ok hs]
      rfl

/-- A successful child load appends every relation's extracted rows (with the
`Measurements` batch folding its per-row replacement). -/
theorem loadChildren_ok {days : List MaterializedDay} {st stF : MfpDB}
    (h : loadChildren days st = .ok stF) :
    stF = { st with
      notes := st.notes ++ extract_notes days
      water := st.water ++ extract_water days
      goals := st.goals ++ extract_goals days
      meals := st.meals ++ extract_meal_records (extract_meals days).1
      mealEntries := st.mealEntries ++ extract_mealentries (extract_meals days).1
      cardioExercises := st.cardioExercises ++ extract_cardio_exercises days
      strengthExercises := st.strengthExercises ++ extract_strength_exercises days
      measurements := measFold st.measurements (extract_measures days) } := by
  unfold loadChildren at h
  cases h1 : executeMany insert_notes_step (extract_notes days) st with
  | error e => simp only [h1, except_bind_error] at h; exact absurd h (by simp)
  | ok st1 =>
  simp only [h1, except_bind_ok] at h
  cases h2 : executeMany insert_water_step (extract_water days) st1 with
  | error e => simp only [h2, except_bind_error] at h; exact absurd h (by simp)
  | ok st2 =>
  simp only [h2, except_bind_ok] at h
  cases h3 : executeMany insert_goals_step (extract_goals days) st2 with
  | error e => simp only [h3, except_bind_error] at h; exact absurd h (by simp)
  | ok st3 =>
  simp only [h3, except_bind_ok] at h
  cases h4 : executeMany insert_meals_step (extract_meal_records (extract_meals days).1) st3 with
  | error e => simp only [h4, except_bind_error] at h; exact absurd h (by simp)
  | ok st4 =>
  simp only [h4, except_bind_ok] at h
  cases h5 : executeMany insert_mealentries_step
      (extract_mealentries (extract_meals days).1) st4 with
  | error e => simp only [h5, except_bind_error] at h; exact absurd h (by simp)
  | ok st5 =>
  simp only [h5, except_bind_ok] at h
  cases h6 : executeMany insert_cardioexercises_step (extract_cardio_exercises days) st5 with
  | error e => simp only [h6, except_bind_error] at h; exact absurd h (by simp)
  | ok st6 =>
  simp only [h6, except_bind_ok] at h
  cases h7 : executeMany insert_strengthexercises_step
      (extract_strength_exercises days) st6 with
  | error e => simp only [h7, except_bind_error] at h; exact absurd h (by simp)
  | ok st7 =>
  simp only [h7, except_bind_ok] at h
  cases h8 : executeMany insert_measurements_step (extract_measures days) st7 with
  | error e => simp only [h8, except_bind_error] at h; exact absurd h (by simp)
  | ok st8 =>
  simp only [h8, except_bind_ok] at h
  have hF : st8 = stF := Except.ok.inj h
  rw [← hF, executeMany_measurements_ok h8, executeMany_strength_ok h7,
    executeMany_cardio_ok h6, executeMany_mealentries_ok h5, executeMany_meals_ok h4,
    executeMany_goals_ok h3, executeMany_water_ok h2, executeMany_notes_ok h1]

/-- `find?` returns the head of the filtered list. -/
theorem find?_eq_head_filter (p : α → Bool) (l : List α) :
    l.find? p = (l.filter p).head? := by
  induction l with
  | nil => rfl
  | cons a rest ih =>
    cases hp : p a
    · rw [List.find?_cons_of_neg _ (by simp [hp]), List.filter_cons_of_neg (by simp [hp]), ih]
    · rw [List.find?_cons_of_pos _ hp, List.filter_cons_of_pos hp]
      rfl

/-- The stored-payload lookup reads the head of the rows at the key. -/
theorem select_eq_head_atKey (rawtbl : List RawRow) (u : String) (d : Date) :
    select_rawdaydata_record rawtbl u d =
      ((atKey (·.1) (·.2.1) u d rawtbl).head?).bind (·.2.2) := by
  unfold select_rawdaydata_record atKey
  rw [find?_eq_head_filter]

/-- Days aligned with the requested dates carry the flow's username and a
requested date. -/
theorem aligned_mem {username : String} {dates : List Date}
    {extracted_days : List MaterializedDay}
    (halign : List.Forall₂ (fun day dt => day.username = username ∧ day.date = dt)
      extracted_days dates) :
    ∀ day ∈ extracted_days, day.username = username ∧ day.date ∈ dates := by
  induction halign with
  | nil => intro day h; exact absurd h (List.not_mem_nil day)
  | @cons day0 d0 restd restdt h hrest ih =>
    intro day hday
    rcases List.mem_cons.mp hday with heq | hmem
    · subst heq
      exact ⟨h.1, by rw [h.2]; exact List.mem_cons_self _ _⟩
    · obtain ⟨h1, h2⟩ := ih day hmem
      exact ⟨h1, List.mem_cons_of_mem _ h2⟩

/-- Keys of aligned extracted days are the requested dates paired with the
username. -/
theorem keys_of_aligned {username : String} {dates : List Date}
    {extracted_days : List MaterializedDay}
    (halign : List.Forall₂ (fun day dt => day.username = username ∧ day.date = dt)
      extracted_days dates) :
    extracted_days.map (fun day => (day.username, day.date)) =
      dates.map (fun d => (username, d)) := by
  induction halign with
  | nil => rfl
  | @cons day0 d0 restd restdt h hrest ih => simp [h.1, h.2, ih]

/-- Keys of aligned extracted days are pairwise distinct when the dates are. -/
theorem aligned_keys_nodup {username : String} {dates : List Date}
    {extracted_days : List MaterializedDay}
    (halign : List.Forall₂ (fun day dt => day.username = username ∧ day.date = dt)
      extracted_days dates) (hnodup : dates.Nodup) :
    (extracted_days.map (fun day => (day.username, day.date))).Nodup := by
  rw [keys_of_aligned halign]
  exact hnodup.map (fun a b hab => (Prod.ext_iff.mp hab).2)

/-- A successful ETL run decomposes into the raw batch, the deserialization of
exactly the records kept by the Change Detector, and the child load. -/
theorem etl_run_ok_decompose {encode : MaterializedDay → String}
    {decode : String → Option MaterializedDay} {username : String} {dates : List Date}
    {extracted_days : List MaterializedDay} {st0 stF : MfpDB}
    (h : etl_run encode decode username dates extracted_days st0 = .ok stF) :
    ∃ days_to_process,
      deserialize_records_to_process decode
        (filter_new_or_changed_records (serialize_myfitnesspal_days encode extracted_days)
          (mfp_select_raw_days st0.rawDayData username dates)) = .ok days_to_process ∧
      loadChildren days_to_process
        (rawFold
          (filter_new_or_changed_records (serialize_myfitnesspal_days encode extracted_days)
            (mfp_select_raw_days st0.rawDayData username dates)) st0) = .ok stF := by
  unfold etl_run at h
  simp only [executeMany_raw_eq_fold, except_bind_ok] at h
  cases hd : deserialize_records_to_process decode
      (filter_new_or_changed_records (serialize_myfitnesspal_days encode extracted_days)
        (mfp_select_raw_days st0.rawDayData username dates)) with
  | error e => simp only [hd, except_bind_error] at h; exact absurd h (by simp)
  | ok days =>
    simp only [hd, except_bind_ok] at h
    exact ⟨days, rfl, h⟩

/-- The Change Detector over serialized days keeps the serialization of
exactly the days whose serialized tuple is not locally available. -/
theorem filter_changed_of_serialized (encode : MaterializedDay → String)
    (days : List MaterializedDay) (local_records : List RawRow) :
    filter_new_or_changed_records (serialize_myfitnesspal_days encode days) local_records =
      (days.filter (fun day =>
        !(local_records.contains (day.username, day.date, some (encode day))))).map
        (fun day => (day.username, day.date, some (encode day))) := by
  unfold filter_new_or_changed_records serialize_myfitnesspal_days
  rw [List.filter_map]
  rfl

/-- Deserializing serialized days recovers the days themselves when `decode`
inverts `encode` on them. -/
theorem deserialize_of_serialized {encode : MaterializedDay → String}
    {decode : String → Option MaterializedDay} (days : List MaterializedDay)
    (hrt : ∀ day ∈ days, decode (encode day) = some day) :
    deserialize_records_to_process decode
      (days.map (fun day => (day.username, day.date, some (encode day)))) = .ok days := by
  induction days with
  | nil => rfl
  | cons day rest ih =>
    have h1 : decode (encode day) = some day := hrt day (List.mem_cons_self day rest)
    have h2 := ih (fun d hd => hrt d (List.mem_cons_of_mem day hd))
    simp only [List.map_cons, deserialize_records_to_process, h1, h2]

/-- The days the pipeline deserializes and decomposes are exactly the
extracted days the Change Detector marked new-or-changed. -/
theorem etl_days_to_process (encode : MaterializedDay → String)
    {decode : String → Option MaterializedDay} (extracted_days : List MaterializedDay)
    (local_records : List RawRow)
    (hrt : ∀ day ∈ extracted_days, decode (encode day) = some day) :
    deserialize_records_to_process decode
      (filter_new_or_changed_records (serialize_myfitnesspal_days encode extracted_days)
        local_records) =
      .ok (extracted_days.filter (fun day =>
        !(local_records.contains (day.username, day.date, some (encode day))))) := by
  rw [filter_changed_of_serialized]
  exact deserialize_of_serialized _ (fun d hd => hrt d (List.mem_of_mem_filter hd))

/-- Raw-table part of `rawFold_processed_key`, with no consistency premise. -/
theorem rawFold_processed_key_raw (recs : List RawRow) (st : MfpDB)
    (hnodup : (recs.map (fun x => (x.1, x.2.1))).Nodup)
    {r : RawRow} (hr : r ∈ recs) :
    atKey (·.1) (·.2.1) r.1 r.2.1 (rawFold recs st).rawDayData = [r] := by
  induction recs generalizing st with
  | nil => exact absurd hr (List.not_mem_nil r)
  | cons q rest ih =>
    rw [List.map_cons, List.nodup_cons] at hnodup
    obtain ⟨hq, hrest⟩ := hnodup
    rcases List.mem_cons.mp hr with hqr | hmem
    · subst hqr
      have hnotin : ∀ r' ∈ rest, ¬(r'.1 = r.1 ∧ r'.2.1 = r.2.1) := by
        intro r' hr' hk
        exact hq (List.mem_map.mpr ⟨r', hr', by rw [hk.1, hk.2]⟩)
      exact ((rawFold_other_keys rest (insert_or_replace_rawdaydata st r) hnotin).1).trans
        (ior_rawAt_self st r)
    · exact ih (insert_or_replace_rawdaydata st q) hrest hmem

/-- After a successful run, every extracted day's serialized payload is the
stored payload for its key — whether it was just written (reprocessed) or
suppressed because the identical tuple was already stored. -/
theorem etl_run_raw_after {encode : MaterializedDay → String}
    {decode : String → Option MaterializedDay} {username : String} {dates : List Date}
    {extracted_days : List MaterializedDay} {st0 stF : MfpDB}
    (halign : List.Forall₂ (fun day dt => day.username = username ∧ day.date = dt)
      extracted_days dates)
    (hnodup : dates.Nodup)
    (hrun : etl_run encode decode username dates extracted_days st0 = .ok stF) :
    ∀ day ∈ extracted_days,
      select_rawdaydata_record stF.rawDayData username day.date = some (encode day) := by
  obtain ⟨days_p, hdes, hload⟩ := etl_run_ok_decompose hrun
  have hraw : stF.rawDayData =
      (rawFold (filter_new_or_changed_records
        (serialize_myfitnesspal_days encode extracted_days)
        (mfp_select_raw_days st0.rawDayData username dates)) st0).rawDayData := by
    rw [loadChildren_ok hload]
  intro day hday
  obtain ⟨hu, hdmem⟩ := aligned_mem halign day hday
  have hrecmem : (day.username, day.date, some (encode day)) ∈
      serialize_myfitnesspal_days encode extracted_days :=
    List.mem_map.mpr ⟨day, hday, rfl⟩
  have hkeysnodup : ((serialize_myfitnesspal_days encode extracted_days).map
      (fun t => (t.1, t.2.1))).Nodup := by
    have hmm : (serialize_myfitnesspal_days encode extracted_days).map (fun t => (t.1, t.2.1))
        = extracted_days.map (fun day => (day.username, day.date)) := by
      unfold serialize_myfitnesspal_days
      rw [List.map_map]
      rfl
    rw [hmm]
    exact aligned_keys_nodup halign hnodup
  by_cases hmem : (day.username, day.date, some (encode day)) ∈
      filter_new_or_changed_records (serialize_myfitnesspal_days encode extracted_days)
        (mfp_select_raw_days st0.rawDayData username dates)
  · have hkeys2 : ((filter_new_or_changed_records
        (serialize_myfitnesspal_days encode extracted_days)
        (mfp_select_raw_days st0.rawDayData username dates)).map
        (fun t => (t.1, t.2.1))).Nodup :=
      List.Nodup.sublist (List.Sublist.map _ (List.filter_sublist _)) hkeysnodup
    have hfold' : atKey (·.1) (·.2.1) day.username day.date
        (rawFold (filter_new_or_changed_records
          (serialize_myfitnesspal_days encode extracted_days)
          (mfp_select_raw_days st0.rawDayData username dates)) st0).rawDayData =
        [(day.username, day.date, some (encode day))] :=
      rawFold_processed_key_raw _ st0 hkeys2 hmem
    rw [hu] at hfold'
    rw [hraw, select_eq_head_atKey, hfold']
    rfl
  · have hmem_loc : (day.username, day.date, some (encode day)) ∈
        mfp_select_raw_days st0.rawDayData username dates := by
      by_contra hno
      apply hmem
      unfold filter_new_or_changed_records
      rw [List.mem_filter]
      refine ⟨hrecmem, ?_⟩
      cases hc : (mfp_select_raw_days st0.rawDayData username dates).contains
          (day.username, day.date, some (encode day))
      · rfl
      · exact absurd (List.mem_of_elem_eq_true hc) hno
    obtain ⟨d', hd'mem, hd'eq⟩ := List.mem_map.mp hmem_loc
    simp only [Prod.mk.injEq] at hd'eq
    obtain ⟨heq1, heq2, heq3⟩ := hd'eq
    subst heq2
    have hnotin : ∀ r' ∈ filter_new_or_changed_records
        (serialize_myfitnesspal_days encode extracted_days)
        (mfp_select_raw_days st0.rawDayData username dates),
        ¬(r'.1 = username ∧ r'.2.1 = day.date) := by
      intro r' hr' hk
      have hr'ser : r' ∈ serialize_myfitnesspal_days encode extracted_days :=
        List.mem_of_mem_filter hr'
      have hreq : r' = (day.username, day.date, some (encode day)) := by
        apply List.inj_on_of_nodup_map hkeysnodup hr'ser hrecmem
        show (r'.1, r'.2.1) = (day.username, day.date)
        rw [hk.1, hk.2, hu]
      rw [hreq] at hr'
      exact hmem hr'
    have hpres := (rawFold_other_keys _ st0 hnotin).1
    rw [hraw, select_eq_head_atKey, hpres, ← select_eq_head_atKey]
    exact heq3

/-- Rows that all carry the key are kept whole by the key filter. -/
theorem atKey_eq_self_of_all (user : ρ → String) (dt : ρ → Date) (u : String) (d : Date)
    {L : List ρ} (h : ∀ row ∈ L, user row = u ∧ dt row = d) :
    atKey user dt u d L = L := by
  unfold atKey
  rw [List.filter_eq_self]
  intro a ha
  rw [(h a ha).1, (h a ha).2]
  simp

/-- Rows none of which carries the key vanish under the key filter. -/
theorem atKey_eq_nil_of_none (user : ρ → String) (dt : ρ → Date) (u : String) (d : Date)
    {L : List ρ} (h : ∀ row ∈ L, ¬(user row = u ∧ dt row = d)) :
    atKey user dt u d L = [] := by
  unfold atKey
  rw [List.filter_eq_nil_iff]
  intro a ha hb
  rw [Bool.and_eq_true, beq_iff_eq, beq_iff_eq] at hb
  exact h a ha hb

/-- Generic decomposition: an extractor that distributes over append and
stamps each row with its day's key restricts, at a processed day's key, to
that day's own rows (keys pairwise distinct). -/
theorem extract_split {ρ : Type} (user : ρ → String) (dt : ρ → Date)
    (E : List MaterializedDay → List ρ)
    (hEapp : ∀ l1 l2, E (l1 ++ l2) = E l1 ++ E l2)
    (hEkey : ∀ days row, row ∈ E days →
      ∃ day ∈ days, user row = day.username ∧ dt row = day.date)
    {days : List MaterializedDay} {day : MaterializedDay} (hday : day ∈ days)
    (hknodup : (days.map (fun day => (day.username, day.date))).Nodup) :
    atKey user dt day.username day.date (E days) = E [day] := by
  obtain ⟨l1, l2, rfl⟩ := List.append_of_mem hday
  rw [List.map_append, List.map_cons, List.nodup_append] at hknodup
  obtain ⟨hn1, hn2, hdisj⟩ := hknodup
  rw [List.nodup_cons] at hn2
  have hout1 : ∀ day' ∈ l1, ¬(day'.username = day.username ∧ day'.date = day.date) := by
    intro day' hd' hk
    exact hdisj (List.mem_map.mpr ⟨day', hd', rfl⟩)
      (by rw [show (day'.username, day'.date) = (day.username, day.date) from
        by rw [hk.1, hk.2]]; exact List.mem_cons_self _ _)
  have hout2 : ∀ day' ∈ l2, ¬(day'.username = day.username ∧ day'.date = day.date) := by
    intro day' hd' hk
    exact hn2.1 (by rw [show (day.username, day.date) = (day'.username, day'.date) from
      by rw [hk.1, hk.2]]; exact List.mem_map.mpr ⟨day', hd', rfl⟩)
  have hsplit : E (l1 ++ day :: l2) = E l1 ++ (E [day] ++ E l2) := by
    rw [hEapp l1 (day :: l2), show day :: l2 = [day] ++ l2 from rfl, hEapp [day] l2]
  have hnil1 : atKey user dt day.username day.date (E l1) = [] := by
    apply atKey_eq_nil_of_none
    intro row hrow
    obtain ⟨day', hd', h1, h2⟩ := hEkey l1 row hrow
    intro hk
    exact hout1 day' hd' ⟨by rw [← h1]; exact hk.1, by rw [← h2]; exact hk.2⟩
  have hnil2 : atKey user dt day.username day.date (E l2) = [] := by
    apply atKey_eq_nil_of_none
    intro row hrow
    obtain ⟨day', hd', h1, h2⟩ := hEkey l2 row hrow
    intro hk
    exact hout2 day' hd' ⟨by rw [← h1]; exact hk.1, by rw [← h2]; exact hk.2⟩
  have hself : atKey user dt day.username day.date (E [day]) = E [day] := by
    apply atKey_eq_self_of_all
    intro row hrow
    obtain ⟨day', hd', h1, h2⟩ := hEkey [day] row hrow
    rw [List.mem_singleton] at hd'
    subst hd'
    exact ⟨h1, h2⟩
  rw [hsplit, atKey_append, atKey_append, hnil1, hnil2, hself]
  simp

/-- Note extraction distributes over append. -/
theorem extract_notes_append (l1 l2 : List MaterializedDay) :
    extract_notes (l1 ++ l2) = extract_notes l1 ++ extract_notes l2 := by
  simp [extract_notes, List.filter_append]

/-- Water extraction distributes over append. -/
theorem extract_water_append (l1 l2 : List MaterializedDay) :
    extract_water (l1 ++ l2) = extract_water l1 ++ extract_water l2 := by
  simp [extract_water]

/-- Goal extraction distributes over append. -/
theorem extract_goals_append (l1 l2 : List MaterializedDay) :
    extract_goals (l1 ++ l2) = extract_goals l1 ++ extract_goals l2 := by
  simp [extract_goals]

/-- Meal extraction distributes over append. -/
theorem extract_meals_fst_append (l1 l2 : List MaterializedDay) :
    (extract_meals (l1 ++ l2)).1 = (extract_meals l1).1 ++ (extract_meals l2).1 := by
  simp [extract_meals]

/-- Meal-record extraction distributes over append. -/
theorem extract_meal_records_append (m1 m2 : List MealD) :
    extract_meal_records (m1 ++ m2) = extract_meal_records m1 ++ extract_meal_records m2 := by
  simp [extract_meal_records]

/-- Meal-entry extraction distributes over append. -/
theorem extract_mealentries_append (m1 m2 : List MealD) :
    extract_mealentries (m1 ++ m2) = extract_mealentries m1 ++ extract_mealentries m2 := by
  simp [extract_mealentries]

/-- Cardio extraction distributes over append. -/
theorem extract_cardio_append (l1 l2 : List MaterializedDay) :
    extract_cardio_exercises (l1 ++ l2) =
      extract_cardio_exercises l1 ++ extract_cardio_exercises l2 := by
  simp [extract_cardio_exercises]

/-- Strength extraction distributes over append. -/
theorem extract_strength_append (l1 l2 : List MaterializedDay) :
    extract_strength_exercises (l1 ++ l2) =
      extract_strength_exercises l1 ++ extract_strength_exercises l2 := by
  simp [extract_strength_exercises]

/-- Measurement extraction distributes over append. -/
theorem extract_measures_append (l1 l2 : List MaterializedDay) :
    extract_measures (l1 ++ l2) = extract_measures l1 ++ extract_measures l2 := by
  simp [extract_measures]

/-- Every note row carries its day's key. -/
theorem extract_notes_key (days : List MaterializedDay) :
    ∀ row ∈ extract_notes days,
      ∃ day ∈ days, row.1 = day.username ∧ row.2.1 = day.date := by
  intro row hrow
  unfold extract_notes at hrow
  obtain ⟨day, hday, heq⟩ := List.mem_map.mp hrow
  subst heq
  exact ⟨day, List.mem_of_mem_filter hday, rfl, rfl⟩

/-- Every water row carries its day's key. -/
theorem extract_water_key (days : List MaterializedDay) :
    ∀ row ∈ extract_water days,
      ∃ day ∈ days, row.1 = day.username ∧ row.2.1 = day.date := by
  intro row hrow
  obtain ⟨day, hday, heq⟩ := List.mem_map.mp hrow
  subst heq
  exact ⟨day, hday, rfl, rfl⟩

/-- Every goal row carries its day's key. -/
theorem extract_goals_key (days : List MaterializedDay) :
    ∀ row ∈ extract_goals days,
      ∃ day ∈ days, row.userid = day.username ∧ row.date = day.date := by
  intro row hrow
  obtain ⟨day, hday, heq⟩ := List.mem_map.mp hrow
  subst heq
  exact ⟨day, hday, rfl, rfl⟩

/-- Every extracted (tagged) meal carries its day's key. -/
theorem extract_meals_key (days : List MaterializedDay) :
    ∀ meal ∈ (extract_meals days).1,
      ∃ day ∈ days, meal.username = day.username ∧ meal.date = day.date := by
  intro meal hmeal
  unfold extract_meals at hmeal
  simp only [List.mem_flatMap, List.mem_map] at hmeal
  obtain ⟨tday, ⟨day, hday, htag⟩, hmem⟩ := hmeal
  subst htag
  simp only [List.mem_filterMap, List.mem_map] at hmem
  obtain ⟨m, ⟨m0, hm0, hg⟩, hid⟩ := hmem
  cases m0 with
  | none => subst hg; exact absurd hid (by simp)
  | some meal0 =>
    subst hg
    simp only [id, Option.some.injEq] at hid
    subst hid
    exact ⟨day, hday, rfl, rfl⟩

/-- Every meal record carries its meal's key. -/
theorem extract_meal_records_key_of (meals : List MealD) :
    ∀ row ∈ extract_meal_records meals,
      ∃ meal ∈ meals, row.userid = meal.username ∧ row.date = meal.date := by
  intro row hrow
  obtain ⟨meal, hmeal, heq⟩ := List.mem_map.mp hrow
  subst heq
  exact ⟨meal, hmeal, rfl, rfl⟩

/-- Every meal-entry row carries its meal's key. -/
theorem extract_mealentries_key_of (meals : List MealD) :
    ∀ row ∈ extract_mealentries meals,
      ∃ meal ∈ meals, row.userid = meal.username ∧ row.date = meal.date := by
  intro row hrow
  unfold extract_mealentries at hrow
  simp only [List.mem_flatMap, List.mem_map] at hrow
  obtain ⟨meal, hmeal, entry, hentry, heq⟩ := hrow
  subst heq
  exact ⟨meal, hmeal, rfl, rfl⟩

/-- Every cardio row carries its day's key. -/
theorem extract_cardio_key (days : List MaterializedDay) :
    ∀ row ∈ extract_cardio_exercises days,
      ∃ day ∈ days, row.userid = day.username ∧ row.date = day.date := by
  intro row hrow
  unfold extract_cardio_exercises at hrow
  simp only [List.mem_flatMap, List.mem_map] at hrow
  obtain ⟨day, hday, rec, hrec, heq⟩ := hrow
  subst heq
  exact ⟨day, hday, rfl, rfl⟩

/-- Every strength row carries its day's key. -/
theorem extract_strength_key (days : List MaterializedDay) :
    ∀ row ∈ extract_strength_exercises days,
      ∃ day ∈ days, row.userid = day.username ∧ row.date = day.date := by
  intro row hrow
  unfold extract_strength_exercises at hrow
  simp only [List.mem_flatMap, List.mem_map] at hrow
  obtain ⟨day, hday, rec, hrec, heq⟩ := hrow
  subst heq
  exact ⟨day, hday, rfl, rfl⟩

/-- Every measurement row carries its day's key. -/
theorem extract_measures_key (days : List MaterializedDay) :
    ∀ row ∈ extract_measures days,
      ∃ day ∈ days, row.userid = day.username ∧ row.date = day.date := by
  intro row hrow
  unfold extract_measures at hrow
  simp only [List.mem_flatMap, List.mem_map] at hrow
  obtain ⟨day, hday, p, hp, heq⟩ := hrow
  subst heq
  exact ⟨day, hday, rfl, rfl⟩

/-- Every meal record derived from a day batch carries its day's key. -/
theorem meal_records_key (days : List MaterializedDay) :
    ∀ row ∈ extract_meal_records (extract_meals days).1,
      ∃ day ∈ days, row.userid = day.username ∧ row.date = day.date := by
  intro row hrow
  obtain ⟨meal, hm, h1, h2⟩ := extract_meal_records_key_of _ row hrow
  obtain ⟨day, hd, g1, g2⟩ := extract_meals_key days meal hm
  exact ⟨day, hd, by rw [h1, g1], by rw [h2, g2]⟩

/-- Every meal-entry row derived from a day batch carries its day's key. -/
theorem mealentries_key (days : List MaterializedDay) :
    ∀ row ∈ extract_mealentries (extract_meals days).1,
      ∃ day ∈ days, row.userid = day.username ∧ row.date = day.date := by
  intro row hrow
  obtain ⟨meal, hm, h1, h2⟩ := extract_mealentries_key_of _ row hrow
  obtain ⟨day, hd, g1, g2⟩ := extract_meals_key days meal hm
  exact ⟨day, hd, by rw [h1, g1], by rw [h2, g2]⟩

/-- An INSERT OR REPLACE batch with fresh, pairwise-distinct full keys is a
plain append. -/
theorem measFold_no_conflict (rows : List MeasurementRow) :
    ∀ l : List MeasurementRow,
      (∀ x ∈ l, ∀ r ∈ rows,
        ¬(x.userid = r.userid ∧ x.date = r.date ∧ x.measure_name = r.measure_name)) →
      ((rows.map (fun r => (r.userid, r.date, r.measure_name))).Nodup) →
      measFold l rows = l ++ rows := by
  induction rows with
  | nil => intro l _ _; simp [measFold]
  | cons r rest ih =>
    intro l hl hnd
    rw [List.map_cons, List.nodup_cons] at hnd
    obtain ⟨hq, hrest⟩ := hnd
    have hstep : measReplace l r = l ++ [r] := by
      unfold measReplace
      rw [List.filter_eq_self.mpr ?pf]
      case pf =>
        intro x hx
        have hx' := hl x hx r (List.mem_cons_self r rest)
        cases hb : (x.userid == r.userid && x.date == r.date && x.measure_name == r.measure_name)
        · rfl
        · rw [Bool.and_eq_true, Bool.and_eq_true, beq_iff_eq, beq_iff_eq, beq_iff_eq] at hb
          exact absurd ⟨hb.1.1, hb.1.2, hb.2⟩ hx'
    have hl' : ∀ x ∈ l ++ [r], ∀ r' ∈ rest,
        ¬(x.userid = r'.userid ∧ x.date = r'.date ∧ x.measure_name = r'.measure_name) := by
      intro x hx r' hr' hk
      rcases List.mem_append.mp hx with hxl | hxr
      · exact hl x hxl r' (List.mem_cons_of_mem r hr') hk
      · rw [List.mem_singleton] at hxr
        subst hxr
        exact hq (List.mem_map.mpr ⟨r', hr', by rw [← hk.1, ← hk.2.1, ← hk.2.2]⟩)
    have : measFold l (r :: rest) = measFold (l ++ [r]) rest := by
      unfold measFold
      rw [List.foldl_cons, hstep]
    rw [this, ih (l ++ [r]) hl' hrest, List.append_assoc]
    rfl

/-- With pairwise-distinct day keys and per-day distinct measure names, the
full `(userid, date, measure_name)` keys of a measurement batch are pairwise
distinct. -/
theorem measures_fullkeys_nodup (days : List MaterializedDay)
    (hknodup : (days.map (fun day => (day.username, day.date))).Nodup)
    (hnames : ∀ day ∈ days, (day.measurements.map (·.1)).Nodup) :
    ((extract_measures days).map
      (fun r => (r.userid, r.date, r.measure_name))).Nodup := by
  induction days with
  | nil => simp [extract_measures]
  | cons day rest ih =>
    rw [List.map_cons, List.nodup_cons] at hknodup
    obtain ⟨hkq, hkrest⟩ := hknodup
    have hsplit : extract_measures (day :: rest) =
        extract_measures [day] ++ extract_measures rest := by
      rw [show day :: rest = [day] ++ rest from rfl, extract_measures_append]
    rw [hsplit, List.map_append, List.nodup_append]
    refine ⟨?_, ih hkrest (fun d hd => hnames d (List.mem_cons_of_mem _ hd)), ?_⟩
    · have h1 : extract_measures [day] = day.measurements.map (fun p =>
          ({ userid := day.username, date := day.date, measure_name := p.1,
             value := p.2 } : MeasurementRow)) := by
        simp [extract_measures]
      rw [h1, List.map_map]
      have h2 : ((fun r : MeasurementRow => (r.userid, r.date, r.measure_name)) ∘
          (fun p : String × Int =>
            ({ userid := day.username, date := day.date, measure_name := p.1,
               value := p.2 } : MeasurementRow)))
          = ((fun n : String => (day.username, day.date, n)) ∘ (·.1)) := rfl
      rw [h2, ← List.map_map]
      exact (hnames day (List.mem_cons_self _ _)).map (fun a b hab => by simpa using hab)
    · intro k hk1 hk2
      obtain ⟨r1, hr1, hkey1⟩ := List.mem_map.mp hk1
      obtain ⟨r2, hr2, hkey2⟩ := List.mem_map.mp hk2
      obtain ⟨d1, hd1, e1, e2⟩ := extract_measures_key [day] r1 hr1
      rw [List.mem_singleton] at hd1
      subst hd1
      obtain ⟨d2, hd2, f1, f2⟩ := extract_measures_key rest r2 hr2
      apply hkq
      have hkk : (r1.userid, r1.date, r1.measure_name) =
          (r2.userid, r2.date, r2.measure_name) := by rw [hkey1, hkey2]
      simp only [Prod.mk.injEq] at hkk
      refine List.mem_map.mpr ⟨d2, hd2, ?_⟩
      rw [← f1, ← f2, ← hkk.1, ← hkk.2.1, e1, e2]

/-- After a successful child load over days with pairwise-distinct keys, a
loaded day whose key held no children before the load holds exactly its own
freshly derived children. -/
theorem loadChildren_children_at {days_p : List MaterializedDay} {st stF : MfpDB}
    (hload : loadChildren days_p st = .ok stF)
    (hknodup : (days_p.map (fun day => (day.username, day.date))).Nodup)
    (hmeasnd : ∀ day ∈ days_p, (day.measurements.map (·.1)).Nodup)
    {day : MaterializedDay} (hday : day ∈ days_p)
    (hempty : childrenAt st day.username day.date = DayChildren.empty)
    (hmeas_noconf : ∀ d2 ∈ days_p,
      atKey (·.userid) (·.date) d2.username d2.date st.measurements = []) :
    childrenAt stF day.username day.date = derivedChildren day := by
  rw [loadChildren_ok hload]
  have he := hempty
  unfold childrenAt DayChildren.empty at he
  simp only [DayChildren.mk.injEq] at he
  obtain ⟨e1, e2, e3, e4, e5, e6, e7, e8⟩ := he
  have hmf : measFold st.measurements (extract_measures days_p)
      = st.measurements ++ extract_measures days_p := by
    apply measFold_no_conflict
    · intro x hx r hr hk
      obtain ⟨d2, hd2, f1, f2⟩ := extract_measures_key days_p r hr
      have h0 := hmeas_noconf d2 hd2
      have hxmem : x ∈ atKey (·.userid) (·.date) d2.username d2.date st.measurements := by
        unfold atKey
        rw [List.mem_filter]
        refine ⟨hx, ?_⟩
        show (x.userid == d2.username && x.date == d2.date) = true
        rw [Bool.and_eq_true, beq_iff_eq, beq_iff_eq]
        exact ⟨by rw [hk.1, f1], by rw [hk.2.1, f2]⟩
      rw [h0] at hxmem
      exact absurd hxmem (List.not_mem_nil x)
    · exact measures_fullkeys_nodup days_p hknodup hmeasnd
  unfold childrenAt derivedChildren
  simp only [DayChildren.mk.injEq]
  refine ⟨?_, ?_, ?_, ?_, ?_, ?_, ?_, ?_⟩
  · show atKey (·.1) (·.2.1) day.username day.date (st.notes ++ extract_notes days_p)
      = extract_notes [day]
    rw [atKey_append, e1,
      extract_split (·.1) (·.2.1) extract_notes extract_notes_append extract_notes_key
        hday hknodup, List.nil_append]
  · show atKey (·.1) (·.2.1) day.username day.date (st.water ++ extract_water days_p)
      = extract_water [day]
    rw [atKey_append, e2,
      extract_split (·.1) (·.2.1) extract_water extract_water_append extract_water_key
        hday hknodup, List.nil_append]
  · show atKey (·.userid) (·.date) day.username day.date (st.goals ++ extract_goals days_p)
      = extract_goals [day]
    rw [atKey_append, e3,
      extract_split (·.userid) (·.date) extract_goals extract_goals_append extract_goals_key
        hday hknodup, List.nil_append]
  · show atKey (·.userid) (·.date) day.username day.date
        (st.meals ++ extract_meal_records (extract_meals days_p).1)
      = extract_meal_records (extract_meals [day]).1
    rw [atKey_append, e4,
      extract_split (·.userid) (·.date)
        (fun ds => extract_meal_records (extract_meals ds).1)
        (fun l1 l2 => by
          show extract_meal_records (extract_meals (l1 ++ l2)).1 =
            extract_meal_records (extract_meals l1).1 ++
              extract_meal_records (extract_meals l2).1
          rw [extract_meals_fst_append, extract_meal_records_append])
        meal_records_key hday hknodup, List.nil_append]
  · show atKey (·.userid) (·.date) day.username day.date
        (st.mealEntries ++ extract_mealentries (extract_meals days_p).1)
      = extract_mealentries (extract_meals [day]).1
    rw [atKey_append, e5,
      extract_split (·.userid) (·.date)
        (fun ds => extract_mealentries (extract_meals ds).1)
        (fun l1 l2 => by
          show extract_mealentries (extract_meals (l1 ++ l2)).1 =
            extract_mealentries (extract_meals l1).1 ++
              extract_mealentries (extract_meals l2).1
          rw [extract_meals_fst_append, extract_mealentries_append])
        mealentries_key hday hknodup, List.nil_append]
  · show atKey (·.userid) (·.date) day.username day.date
        (st.cardioExercises ++ extract_cardio_exercises days_p)
      = extract_cardio_exercises [day]
    rw [atKey_append, e6,
      extract_split (·.userid) (·.date) extract_cardio_exercises extract_cardio_append
        extract_cardio_key hday hknodup, List.nil_append]
  · show atKey (·.userid) (·.date) day.username day.date
        (st.strengthExercises ++ extract_strength_exercises days_p)
      = extract_strength_exercises [day]
    rw [atKey_append, e7,
      extract_split (·.userid) (·.date) extract_strength_exercises extract_strength_append
        extract_strength_key hday hknodup, List.nil_append]
  · show atKey (·.userid) (·.date) day.username day.date
        (measFold st.measurements (extract_measures days_p))
      = extract_measures [day]
    rw [hmf, atKey_append, e8,
      extract_split (·.userid) (·.date) extract_measures extract_measures_append
        extract_measures_key hday hknodup, List.nil_append]

/-- When every extracted day's payload is already the stored one, the local
selection reproduces the serialized extraction verbatim. -/
theorem select_map_eq_serialize {encode : MaterializedDay → String} {username : String}
    {dates : List Date} {extracted_days : List MaterializedDay} {rawtbl : List RawRow}
    (halign : List.Forall₂ (fun day dt => day.username = username ∧ day.date = dt)
      extracted_days dates) :
    (∀ day ∈ extracted_days,
      select_rawdaydata_record rawtbl username day.date = some (encode day)) →
    mfp_select_raw_days rawtbl username dates =
      serialize_myfitnesspal_days encode extracted_days := by
  induction halign with
  | nil => intro _; rfl
  | @cons day0 d0 restdays restdates h hrest ih =>
    intro hsel
    show (username, d0, select_rawdaydata_record rawtbl username d0) ::
        mfp_select_raw_days rawtbl username restdates =
      (day0.username, day0.date, some (encode day0)) ::
        serialize_myfitnesspal_days encode restdays
    obtain ⟨h1, h2⟩ := h
    subst h2
    rw [hsel day0 (List.mem_cons_self _ _), h1,
      ih (fun day hd => hsel day (List.mem_cons_of_mem _ hd))]

/-- The Change Detector suppresses everything when the local records coincide
with the extraction. -/
theorem filter_new_or_changed_self (l : List RawRow) :
    filter_new_or_changed_records l l = [] := by
  unfold filter_new_or_changed_records
  rw [List.filter_eq_nil_iff]
  intro t ht
  have hc : l.contains t = true := List.elem_eq_true_of_mem ht
  simp only [Bool.not_eq_true, hc]
  rfl

/-- A run in which the Change Detector suppresses every record writes nothing
and succeeds with the state unchanged. -/
theorem etl_run_of_no_changes {encode : MaterializedDay → String}
    {decode : String → Option MaterializedDay} {username : String} {dates : List Date}
    {extracted_days : List MaterializedDay} {st : MfpDB}
    (hfilter : filter_new_or_changed_records
      (serialize_myfitnesspal_days encode extracted_days)
      (mfp_select_raw_days st.rawDayData username dates) = []) :
    etl_run encode decode username dates extracted_days st = .ok st := by
  unfold etl_run
  simp only [hfilter]
  rfl

/-! ## C1 — running the pipeline twice is idempotent -/

/-- C1: after a successful run, running the full ETL pipeline again on the
identical extracted input yields the identical stored state with no duplicate
child rows — the Change Detector suppresses every (now unchanged) snapshot,
so the second run writes nothing at all; and a forced reprocessing of a
snapshot (bypassing the detector) still produces no duplicate children,
because the `RawDayData` replace cascade-deletes the previously persisted
children before the fresh children are inserted. -/
theorem etl_pipeline_idempotent
    (encode : MaterializedDay → String) (decode : String → Option MaterializedDay)
    (username : String) (dates : List Date) (extracted_days : List MaterializedDay)
    (st0 st1 : MfpDB)
    (halign : List.Forall₂ (fun day dt => day.username = username ∧ day.date = dt)
      extracted_days dates)
    (hnodup : dates.Nodup)
    (hrun1 : etl_run encode decode username dates extracted_days st0 = .ok st1) :
    filter_new_or_changed_records (serialize_myfitnesspal_days encode extracted_days)
        (mfp_select_raw_days st1.rawDayData username dates) = [] ∧
    etl_run encode decode username dates extracted_days st1 = .ok st1 ∧
    ∀ (day : MaterializedDay) (st st' : MfpDB), FKConsistent st →
      (day.measurements.map (·.1)).Nodup →
      forced_reload encode day st = .ok st' →
      childrenAt st' day.username day.date = derivedChildren day := by
  have hsel := etl_run_raw_after halign hnodup hrun1
  have hserial := select_map_eq_serialize halign hsel
  have hfilter : filter_new_or_changed_records
      (serialize_myfitnesspal_days encode extracted_days)
      (mfp_select_raw_days st1.rawDayData username dates) = [] := by
    rw [hserial]
    exact filter_new_or_changed_self _
  refine ⟨hfilter, etl_run_of_no_changes hfilter, ?_⟩
  intro day st st' hfk hmeasnd hforce
  unfold forced_reload at hforce
  have hempty : childrenAt (insert_or_replace_rawdaydata st
      (day.username, day.date, some (encode day))) day.username day.date
      = DayChildren.empty := ior_childrenAt_self st _ hfk
  refine loadChildren_children_at hforce ?_ ?_ (List.mem_singleton.mpr rfl) hempty ?_
  · simp
  · intro d hd
    rw [List.mem_singleton] at hd
    subst hd
    exact hmeasnd
  · intro d2 hd2
    rw [List.mem_singleton] at hd2
    subst hd2
    exact congrArg DayChildren.measurements hempty

/-- Witness for C1: a concrete one-day run against the empty database, after
which the second run returns the stored state unchanged. -/
theorem etl_pipeline_idempotent_witness :
    etl_run encW decW "alice" [1] [dayW] stW1 = .ok stW1 := by
  have hrun1 : etl_run encW decW "alice" [1] [dayW] MfpDB.empty = .ok stW1 := by rfl
  exact (etl_pipeline_idempotent encW decW "alice" [1] [dayW] MfpDB.empty stW1
    (List.Forall₂.cons ⟨rfl, rfl⟩ List.Forall₂.nil) (by decide) hrun1).2.1

/-! ## C3 — children of every changed key are exactly re-derived -/

/-- C3: for every `(user, date)` the Change Detector marks changed, after the
load batch completes the stored child rows for that key are exactly those the
Decomposer derives from the new payload, and no child row from the prior
payload remains — the `RawDayData` replace (with foreign-key enforcement
enabled on the connection) cascade-deletes all previously persisted children
before the fresh children are inserted. -/
theorem changed_key_children_exactly_rederived
    (encode : MaterializedDay → String) (decode : String → Option MaterializedDay)
    (username : String) (dates : List Date) (extracted_days : List MaterializedDay)
    (st0 stF : MfpDB)
    (hrt : ∀ day ∈ extracted_days, decode (encode day) = some day)
    (halign : List.Forall₂ (fun day dt => day.username = username ∧ day.date = dt)
      extracted_days dates)
    (hnodup : dates.Nodup)
    (hfk : FKConsistent st0)
    (hmeasnd : ∀ day ∈ extracted_days, (day.measurements.map (·.1)).Nodup)
    (hrun : etl_run encode decode username dates extracted_days st0 = .ok stF)
    (day : MaterializedDay) (hday : day ∈ extracted_days)
    (hchanged : (day.username, day.date, some (encode day)) ∈
      filter_new_or_changed_records (serialize_myfitnesspal_days encode extracted_days)
        (mfp_select_raw_days st0.rawDayData username dates)) :
    childrenAt stF day.username day.date = derivedChildren day := by
  obtain ⟨days_p, hdes, hload⟩ := etl_run_ok_decompose hrun
  have hid := etl_days_to_process encode extracted_days
    (mfp_select_raw_days st0.rawDayData username dates) hrt
  rw [hid] at hdes
  have hdp : days_p = extracted_days.filter (fun day =>
      !((mfp_select_raw_days st0.rawDayData username dates).contains
        (day.username, day.date, some (encode day)))) := (Except.ok.inj hdes).symm
  subst hdp
  have hkeysnodup_days : (extracted_days.map (fun day => (day.username, day.date))).Nodup :=
    aligned_keys_nodup halign hnodup
  have hsernodup : ((serialize_myfitnesspal_days encode extracted_days).map
      (fun t => (t.1, t.2.1))).Nodup := by
    have hmm : (serialize_myfitnesspal_days encode extracted_days).map
        (fun t => (t.1, t.2.1)) = extracted_days.map (fun day => (day.username, day.date)) := by
      unfold serialize_myfitnesspal_days
      rw [List.map_map]
      rfl
    rw [hmm]
    exact hkeysnodup_days
  have hkeys2 : ((filter_new_or_changed_records
      (serialize_myfitnesspal_days encode extracted_days)
      (mfp_select_raw_days st0.rawDayData username dates)).map
      (fun t => (t.1, t.2.1))).Nodup :=
    List.Nodup.sublist (List.Sublist.map _ (List.filter_sublist _)) hsernodup
  have hdayp : day ∈ extracted_days.filter (fun day =>
      !((mfp_select_raw_days st0.rawDayData username dates).contains
        (day.username, day.date, some (encode day)))) := by
    have hch2 := hchanged
    rw [filter_changed_of_serialized] at hch2
    obtain ⟨day', hday', heq⟩ := List.mem_map.mp hch2
    have hdmem' : day' ∈ extracted_days := List.mem_of_mem_filter hday'
    simp only [Prod.mk.injEq] at heq
    have hdd : day' = day := by
      apply List.inj_on_of_nodup_map hkeysnodup_days hdmem' hday
      show (day'.username, day'.date) = (day.username, day.date)
      rw [heq.1, heq.2.1]
    subst hdd
    exact hday'
  have hknodup_p : ((extracted_days.filter (fun day =>
      !((mfp_select_raw_days st0.rawDayData username dates).contains
        (day.username, day.date, some (encode day))))).map
      (fun day => (day.username, day.date))).Nodup :=
    List.Nodup.sublist (List.Sublist.map _ (List.filter_sublist _)) hkeysnodup_days
  refine loadChildren_children_at hload hknodup_p
    (fun d hd => hmeasnd d (List.mem_of_mem_filter hd)) hdayp ?_ ?_
  · exact rawFold_processed_key _ st0 hkeys2 hfk hchanged |>.2
  · intro d2 hd2
    have hrec2 : (d2.username, d2.date, some (encode d2)) ∈
        filter_new_or_changed_records (serialize_myfitnesspal_days encode extracted_days)
          (mfp_select_raw_days st0.rawDayData username dates) := by
      rw [filter_changed_of_serialized]
      exact List.mem_map.mpr ⟨d2, hd2, rfl⟩
    have h2 : childrenAt (rawFold (filter_new_or_changed_records
        (serialize_myfitnesspal_days encode extracted_days)
        (mfp_select_raw_days st0.rawDayData username dates)) st0)
        d2.username d2.date = DayChildren.empty :=
      rawFold_processed_key _ st0 hkeys2 hfk hrec2 |>.2
    exact congrArg DayChildren.measurements h2

/-- Witness for C3: against the empty database the concrete day is marked
changed, and the loaded state holds exactly its derived children. -/
theorem changed_key_children_exactly_rederived_witness :
    childrenAt stW1 dayW.username dayW.date = derivedChildren dayW := by
  refine changed_key_children_exactly_rederived encW decW "alice" [1] [dayW]
    MfpDB.empty stW1 ?_ (List.Forall₂.cons ⟨rfl, rfl⟩ List.Forall₂.nil) (by decide)
    ?_ ?_ (by rfl) dayW (List.mem_singleton.mpr rfl) (by decide)
  · intro day hday
    rw [List.mem_singleton] at hday
    subst hday
    rfl
  · refine ⟨?_, ?_, ?_, ?_, ?_, ?_, ?_, ?_, ?_⟩ <;>
      exact fun r hr => absurd hr (List.not_mem_nil r)
  · intro day hday
    rw [List.mem_singleton] at hday
    subst hday
    decide
